import Mathlib

/-!
Shallow embedding of the oblinks-payment-server core:
  * deposit crediting  (`createStakeAndCredit`, src/unnamed/part_000 — the variant
    with the 10% fee reversal and the metrics-based daily-rate selection; the
    src/index.js copy of the function omits the fee computation),
  * daily accrual      (`runDailyReturns`, src/index.js — identical in part_000),
  * distribution engine (`handleStake` and helpers, src/distributor.js, first
    variant in the file: equal split of the pool over active-stake users).

The Firestore document store is modelled as association lists keyed by document
id (`String`); a Firestore transaction / batched write becomes a pure state
update that re-reads the current association list exactly where the source
re-reads inside the transaction.  JS numbers are modelled as exact rationals;
`Math.round` is `⌊x + 1/2⌋` on both sides, and the `Number.EPSILON` nudge in
`round2` (a float-error compensation) disappears under exact arithmetic.
-/

namespace Oblinks

/-- JS `Math.round` (half up), as used by `round0` in distributor.js. -/
def round0 (n : ℚ) : ℚ := ((round n : ℤ) : ℚ)

/-- `round2(n) = Math.round((n + EPSILON) * 100) / 100` from index.js / part_000:
round to two decimals, half up. -/
def round2 (n : ℚ) : ℚ := ((round (n * 100) : ℤ) : ℚ) / 100

/-! Product constants from src/unnamed/part_000. -/

def DAILY_RATE : ℚ := 10 / 100
def DURATION_DAYS : ℤ := 20
def REFERRAL_BONUS_RATE : ℚ := 20 / 100
def DEPOSIT_FEE_RATE : ℚ := 10 / 100
def FEE_DIVISOR : ℚ := 1 + DEPOSIT_FEE_RATE
/-- distributor.js user slice size. -/
def PAGE_SIZE : Nat := 200

inductive StakeStatus
  | active
  | completed
  deriving DecidableEq

structure User where
  accountBalance : ℚ
  returnsWallet : ℚ
  totalDeposited : ℚ
  referralCode : Option String
  referrerCode : Option String
  paidRefereesIds : List String
  deriving DecidableEq

structure Stake where
  stakeId : String
  userId : String
  principal : ℚ
  dailyRate : ℚ
  totalDays : ℤ
  remainingDays : ℤ
  earnedSoFar : ℚ
  status : StakeStatus
  lastProcessedDate : Option String
  depositRef : String
  distributionProcessed : Bool
  distributionAmount : ℚ
  referralMovedAmt : ℚ
  deriving DecidableEq

structure Deposit where
  userId : String
  amount : ℚ
  depositFee : Option ℚ
  netPrincipal : Option ℚ
  credited : Bool
  deriving DecidableEq

structure Referral where
  referrerId : String
  refereeId : String
  depositRef : String
  bonus : ℚ
  rate : ℚ
  amount : ℚ
  deriving DecidableEq

structure Transfer where
  amount : ℚ
  userId : String
  deriving DecidableEq

structure DistributionJob where
  locked : Bool
  done : Bool
  cursor : Nat
  totalUsers : Nat
  totalDistributed : ℚ
  reason : Option String
  error : Option String
  deriving DecidableEq

/-- Fresh job document as written by the entry transaction of `handleStake`. -/
def DistributionJob.fresh : DistributionJob :=
  { locked := true, done := false, cursor := 0, totalUsers := 0,
    totalDistributed := 0, reason := none, error := none }

structure CompanyMetrics where
  totalCompanyStakes : ℚ
  totalCompanyTransfers : ℚ
  deriving DecidableEq

def CompanyMetrics.zero : CompanyMetrics :=
  { totalCompanyStakes := 0, totalCompanyTransfers := 0 }

/-- The whole document store: one association list per collection
(`referrals` documents have auto-generated ids, so they are kept as a plain
append-only list). -/
structure DB where
  users : List (String × User)
  stakes : List (String × Stake)
  deposits : List (String × Deposit)
  referrals : List Referral
  transfers : List (String × Transfer)
  jobs : List (String × DistributionJob)
  metrics : Option CompanyMetrics
  deriving DecidableEq

/-! ### Association-list primitives (document get / set) -/

/-- Read a document by id (first occurrence). -/
def getd {α : Type} (l : List (String × α)) (k : String) : Option α :=
  (l.find? (fun p => p.1 == k)).map Prod.snd

/-- Write a document by id: replace the first binding, append if absent. -/
def setd {α : Type} : List (String × α) → String → α → List (String × α)
  | [], k, v => [(k, v)]
  | p :: rest, k, v => if p.1 = k then (k, v) :: rest else p :: setd rest k v

/-! ### Deposit crediting (`createStakeAndCredit`, src/unnamed/part_000 lines 264–376)

The function is decomposed along the source's own paragraphs: the deposit-doc
merge write, the Firestore transaction (all reads, then all writes), and the
`incrementCompanyStakes` follow-up.  It returns the error message thrown by
the transaction (`"User not found for deposit"`) or `none` on success,
together with the resulting store.  On the error path the deposit-document
write that the source performs *before* the transaction is kept (the
transaction rolls back, the earlier `depRef.set` does not). -/

/-- The stake document written for a fresh deposit reference. -/
def newStakeDoc (txRef userId : String) (netPrincipal rate : ℚ) : Stake :=
  { stakeId := txRef, userId := userId, principal := netPrincipal,
    dailyRate := rate, totalDays := DURATION_DAYS,
    remainingDays := DURATION_DAYS, earnedSoFar := 0,
    status := .active, lastProcessedDate := none, depositRef := txRef,
    distributionProcessed := false, distributionAmount := 0,
    referralMovedAmt := 0 }

/-- Daily-rate selection from company metrics (missing doc/fields read as 0):
`(totalStakes === totalTransfers) ? 0.12 : DAILY_RATE`. -/
def chooseDailyRate (db : DB) : ℚ :=
  let m := db.metrics.getD CompanyMetrics.zero
  if m.totalCompanyStakes = m.totalCompanyTransfers then 12 / 100 else DAILY_RATE

/-- Referrer lookup: first user whose `referralCode` matches `u.referrerCode`
(JS `if (u.referrerCode)` treats the empty string as absent). -/
def findReferrer (db : DB) (u : User) : Option (String × User) :=
  match u.referrerCode with
  | none => none
  | some code =>
    if code = "" then none
    else db.users.find? (fun p => p.2.referralCode == some code)

/-- Referral bonus write: guard on the queried snapshot `refData`; the
`increment`/`arrayUnion` writes apply to the value at commit time. -/
def referralWrite (txRef : String) (amount : ℚ) (userId : String)
    (refEntry : Option (String × User)) (db : DB) : DB :=
  match refEntry with
  | none => db
  | some (rid, refData) =>
    if userId ∈ refData.paidRefereesIds then db
    else
      let bonus := round2 (amount * REFERRAL_BONUS_RATE)
      match getd db.users rid with
      | none => db   -- unreachable: the queried referrer document exists
      | some cur =>
        let cur2 : User :=
          { cur with
            returnsWallet := cur.returnsWallet + bonus,
            paidRefereesIds :=
              if userId ∈ cur.paidRefereesIds then cur.paidRefereesIds
              else cur.paidRefereesIds ++ [userId] }
        let refLog : Referral :=
          { referrerId := rid, refereeId := userId, depositRef := txRef,
            bonus := bonus, rate := REFERRAL_BONUS_RATE, amount := amount }
        { db with
          users := setd db.users rid cur2,
          referrals := db.referrals ++ [refLog] }

/-- `tx.update(depRef, { credited: true })`. -/
def markCredited (txRef : String) (db : DB) : DB :=
  match getd db.deposits txRef with
  | some d =>
    let d2 : Deposit := { d with credited := true }
    { db with deposits := setd db.deposits txRef d2 }
  | none => db   -- unreachable: the deposit document was written before the tx

/-- `incrementCompanyStakes` (part_000 lines 139–165), its own transaction. -/
def incrementCompanyStakes (delta : ℚ) (db : DB) : DB :=
  let m : CompanyMetrics :=
    match db.metrics with
    | none => { totalCompanyStakes := round2 delta, totalCompanyTransfers := 0 }
    | some mm =>
      { mm with totalCompanyStakes := round2 (mm.totalCompanyStakes + delta) }
  { db with metrics := some m }

/-- The crediting transaction: reads (user, stake, metrics, referrer query)
followed by the writes. -/
def creditTx (txRef : String) (amount netPrincipal : ℚ) (userId : String)
    (db1 : DB) : Option String × DB :=
  match getd db1.users userId with
  | none => (some "User not found for deposit", db1)
  | some u =>
    let stakeExists := (getd db1.stakes txRef).isSome
    let rate := chooseDailyRate db1
    let refEntry := findReferrer db1 u
    -- writes (no more reads after this point)
    let db2 :=
      if stakeExists then db1
      else { db1 with stakes := setd db1.stakes txRef (newStakeDoc txRef userId netPrincipal rate) }
    let uDep : User := { u with totalDeposited := round2 (u.totalDeposited + amount) }
    let db3 := { db2 with users := setd db2.users userId uDep }
    let db4 := referralWrite txRef amount userId refEntry db3
    (none, markCredited txRef db4)

/-- The deposit document written (merge) before the crediting transaction;
`credited` is untouched by the merge and is `false` when this step runs. -/
def depositWrite (txRef : String) (amount : ℚ) (userId : String) (db : DB) : DB :=
  let netPrincipal := round2 (amount / FEE_DIVISOR)
  let depositFee := round2 (amount - netPrincipal)
  let dep1 : Deposit :=
    { userId := userId, amount := amount, depositFee := some depositFee,
      netPrincipal := some netPrincipal, credited := false }
  { db with deposits := setd db.deposits txRef dep1 }

def createStakeAndCredit (txRef : String) (amount : ℚ) (userId : String)
    (db : DB) : Option String × DB :=
  -- `if (depSnap.exists && depSnap.data()?.credited) return;`
  if ((getd db.deposits txRef).elim false Deposit.credited) then (none, db)
  else
    -- reverse the 10% top-up
    let netPrincipal := round2 (amount / FEE_DIVISOR)
    let db1 : DB := depositWrite txRef amount userId db
    match creditTx txRef amount netPrincipal userId db1 with
    | (some e, dbE) => (some e, dbE)
    | (none, db5) => (none, incrementCompanyStakes netPrincipal db5)
/-! ### Daily accrual (`runDailyReturns`, src/index.js lines 326–409;
identical in src/unnamed/part_000)

The job pages through `status == "active" && remainingDays > 0` stakes ordered
by `(remainingDays, stakeId)`.  A processed stake can never reappear in a later
page of the same run (its `remainingDays` drops below the cursor position), so
the paged scan is modelled as one pass over the initially matching stakes in
query order. -/

/-- Insertion sort by a boolean `le`, standing in for the store's ordered scan. -/
def insertBy {α : Type} (le : α → α → Bool) (x : α) : List α → List α
  | [] => [x]
  | y :: ys => if le x y then x :: y :: ys else y :: insertBy le x ys

def sortBy {α : Type} (le : α → α → Bool) : List α → List α
  | [] => []
  | x :: xs => insertBy le x (sortBy le xs)

/-- Query order of the daily scan: `orderBy("remainingDays").orderBy("stakeId")`
(document ids coincide with the `stakeId` field for created stakes). -/
def stakeScanLE (a b : String × Stake) : Bool :=
  a.2.remainingDays < b.2.remainingDays ∨
    (a.2.remainingDays = b.2.remainingDays ∧ a.1 ≤ b.1)

/-- Processing of one stake from a page snapshot `snap`: the loop-body
pre-checks followed by the per-stake transaction.  A transaction whose
`tx.update` targets a missing document fails and is caught by the loop
(no state change). -/
def processStakeDaily (today : String) (db : DB) (sid : String) (snap : Stake) : DB :=
  -- `if (!userId || remaining <= 0) continue; if (lastDate === today) continue;`
  if snap.userId = "" then db
  else if snap.remainingDays ≤ 0 then db
  else if snap.lastProcessedDate = some today then db
  else
    -- `rate = Number(stake.dailyRate || DAILY_RATE)` — a zero rate is falsy in JS
    let rate := if snap.dailyRate = 0 then DAILY_RATE else snap.dailyRate
    let daily := round2 (snap.principal * rate)
    let newRemaining := snap.remainingDays - 1
    -- the transaction re-reads the stake
    match getd db.stakes sid with
    | none => db   -- `sSnap.data() || {}`: both re-checks read 0/undefined, return
    | some s =>
      if s.lastProcessedDate = some today then db
      else if s.remainingDays ≤ 0 then db
      else
        match getd db.users snap.userId with
        | none => db   -- `tx.update(userRef, …)` on a missing user fails, caught
        | some u =>
          let u2 : User := { u with returnsWallet := u.returnsWallet + daily }
          let s2 : Stake :=
            { s with
              earnedSoFar := s.earnedSoFar + daily,
              remainingDays := newRemaining,
              lastProcessedDate := some today,
              status := if newRemaining ≤ 0 then .completed else s.status }
          { db with users := setd db.users snap.userId u2,
                    stakes := setd db.stakes sid s2 }

/-- The page of stakes the scan visits, in query order. -/
def dailyPage (db : DB) : List (String × Stake) :=
  sortBy stakeScanLE
    (db.stakes.filter (fun p => p.2.status = StakeStatus.active ∧ p.2.remainingDays > 0))

/-- One run of the daily returns job for run date `today`. -/
def runDailyReturns (today : String) (db : DB) : DB :=
  (dailyPage db).foldl (fun acc p => processStakeDaily today acc p.1 p.2) db

/-! ### Distribution engine (src/distributor.js lines 1–264, the equal-split
variant; the second half of the file is a weighted variant that the claims do
not reference)

Timestamps (`createdAt`, `heartbeat`, …) and the free-text `reason` written
onto the stake document are not modelled; every money- or control-flow-bearing
field is. -/

inductive DResult
  | ok
  | stakeNotFound
  | alreadyCompleted
  | alreadyLocked
  deriving DecidableEq

structure RunOut where
  res : DResult
  referralMoved : ℚ
  distributed : ℚ
  db : DB
  deriving DecidableEq

/-- Entry transaction of `handleStake`: read-or-create the job keyed by the
stake id; `"Job already completed"` / `"Job already locked"` abort before any
write, otherwise `locked` is set. -/
def jobEntry (db : DB) (stakeId : String) : Except DResult DB :=
  match getd db.jobs stakeId with
  | some j =>
    if j.done then .error .alreadyCompleted
    else if j.locked then .error .alreadyLocked
    else
      let j2 : DistributionJob := { j with locked := true, done := false }
      .ok { db with jobs := setd db.jobs stakeId j2 }
  | none => .ok { db with jobs := setd db.jobs stakeId DistributionJob.fresh }

/-- `finishJob` (distributor.js lines 130–141). -/
def finishJob (db : DB) (stakeId : String) (reason : String)
    (referral distributed : ℚ) : DB :=
  let db1 :=
    match getd db.jobs stakeId with
    | some j =>
      let j2 : DistributionJob := { j with done := true, locked := false, reason := some reason }
      { db with jobs := setd db.jobs stakeId j2 }
    | none =>
      let j2 : DistributionJob :=
        { locked := false, done := true, cursor := 0, totalUsers := 0,
          totalDistributed := 0, reason := some reason, error := none }
      { db with jobs := setd db.jobs stakeId j2 }
  match getd db1.stakes stakeId with
  | some s =>
    let s2 : Stake :=
      { s with
        distributionProcessed := true,
        distributionAmount := round0 distributed,
        referralMovedAmt := round0 referral }
    { db1 with stakes := setd db1.stakes stakeId s2 }
  | none => db1

/-- `getReferralForStake`: first referral record whose `depositRef` matches;
a falsy (`""`) `referrerId` reads as absent, the bonus is clamped at 0. -/
def getReferralForStake (db : DB) (stakeId : String) : Option String × ℚ :=
  match db.referrals.find? (fun r => r.depositRef == stakeId) with
  | none => (none, 0)
  | some d => (if d.referrerId = "" then none else some d.referrerId, max 0 d.bonus)

/-- `moveReferralBonus`: one transaction moving `min(bonus, returnsWallet)`
from the referrer's `returnsWallet` to `accountBalance`, writing the
deterministic transfer `REF-<stakeId>-<referrerId>`; an existing transfer id
short-circuits to its recorded amount. -/
def moveReferralBonus (db : DB) (referrerId stakeId : String) (bonus : ℚ) : ℚ × DB :=
  let tid := "REF-" ++ stakeId ++ "-" ++ referrerId
  match getd db.transfers tid with
  | some t => (t.amount, db)          -- idempotent replay
  | none =>
    match getd db.users referrerId with
    | none => (0, db)
    | some u =>
      let available := u.returnsWallet
      let take := min available bonus
      if take ≤ 0 then (0, db)
      else
        let u2 : User :=
          { u with
            accountBalance := u.accountBalance + take,
            returnsWallet := available - take }
        let t : Transfer := { amount := round0 take, userId := referrerId }
        (take, { db with users := setd db.users referrerId u2,
                         transfers := setd db.transfers tid t })

/-- Insertion-order dedup, as JS `Set.add` over the paged stake scan. -/
def dedupFirstAux (seen : List String) : List String → List String
  | [] => []
  | x :: xs =>
    if x ∈ seen then dedupFirstAux seen xs else x :: dedupFirstAux (x :: seen) xs

/-- `listAllUsersWithActiveStake`: unique owner ids of active stakes, scan
ordered by the `stakeId` field, falsy owner ids skipped. -/
def listAllUsersWithActiveStake (db : DB) : List String :=
  let ordered := sortBy (fun a b => a.2.stakeId ≤ b.2.stakeId)
    (db.stakes.filter (fun p => p.2.status = StakeStatus.active))
  dedupFirstAux [] ((ordered.map (fun p => p.2.userId)).filter (fun uid => uid ≠ ""))

/-- One user of a distribution slice: the user snapshot is read from the
pre-batch state `db0` (`getAll` reads the whole slice before the batch
writes); `min(returnsWallet, portion)` moves from `returnsWallet` to
`accountBalance` and the transfer `DIST-<stakeId>-<userId>` is upserted. -/
def distributeOne (db0 : DB) (portion : ℚ) (stakeId : String)
    (acc : ℚ × DB) (uid : String) : ℚ × DB :=
  match getd db0.users uid with
  | none => acc
  | some u =>
    let avail := u.returnsWallet
    let take := min avail portion
    if take ≤ 0 then acc
    else
      let u2 : User :=
        { u with
          accountBalance := u.accountBalance + take,
          returnsWallet := avail - take }
      let t : Transfer := { amount := round0 take, userId := uid }
      (acc.1 + take,
        { acc.2 with users := setd acc.2.users uid u2,
                     transfers := setd acc.2.transfers ("DIST-" ++ stakeId ++ "-" ++ uid) t })

def distributeSlice (db0 : DB) (userIds : List String) (portion : ℚ)
    (stakeId : String) : ℚ × DB :=
  userIds.foldl (distributeOne db0 portion stakeId) (0, db0)

/-- Per-page job-progress write (`jobRef.set({cursor, totalUsers,
totalDistributed, heartbeat}, {merge:true})`). -/
def setJobProgress (db : DB) (stakeId : String) (cursor totalUsers : Nat)
    (totalDistributed : ℚ) : DB :=
  match getd db.jobs stakeId with
  | some j =>
    let j2 : DistributionJob :=
      { j with
        cursor := cursor, totalUsers := totalUsers,
        totalDistributed := totalDistributed }
    { db with jobs := setd db.jobs stakeId j2 }
  | none =>
    let j2 : DistributionJob :=
      { locked := false, done := false, cursor := cursor, totalUsers := totalUsers,
        totalDistributed := totalDistributed, reason := none, error := none }
    { db with jobs := setd db.jobs stakeId j2 }

/-- The slicing loop `for (let i=0; i<userIds.length; i+=PAGE_SIZE)`. -/
def distLoop (stakeId : String) (portion : ℚ) (totalUsers : Nat)
    (ids : List String) (idx : Nat) (dist : ℚ) (db : DB) : ℚ × DB :=
  match ids with
  | [] => (dist, db)
  | h :: t =>
    let slice := (h :: t).take PAGE_SIZE
    let out := distributeSlice db slice portion stakeId
    let dist2 := dist + out.1
    let db2 := setJobProgress out.2 stakeId (idx + slice.length) totalUsers (round0 dist2)
    distLoop stakeId portion totalUsers ((h :: t).drop PAGE_SIZE) (idx + slice.length) dist2 db2
termination_by ids.length
decreasing_by
  simp only [List.length_drop, List.length_cons, PAGE_SIZE]
  omega

/-- `handleStake`: entry lock, invalid-principal early exit, referral step,
equal split of the remaining pool over active-stake users, metrics increment,
stake/job completion. -/
def handleStake (stakeId : String) (stakeDoc : Stake) (db : DB) : RunOut :=
  match jobEntry db stakeId with
  | .error e => { res := e, referralMoved := 0, distributed := 0, db := db }
  | .ok db1 =>
    let principal := stakeDoc.principal
    if ¬ principal > 0 then
      { res := .ok, referralMoved := 0, distributed := 0,
        db := finishJob db1 stakeId "invalid-principal" 0 0 }
    else
      let r := getReferralForStake db1 stakeId
      let rm : ℚ × DB :=
        match r.1 with
        | some rid => if r.2 > 0 then moveReferralBonus db1 rid stakeId r.2 else (0, db1)
        | none => (0, db1)
      let referralMoved := rm.1
      let db2 := rm.2
      let pool := max 0 (principal - referralMoved)
      let dd : ℚ × DB :=
        if pool > 0 then
          let userIds := listAllUsersWithActiveStake db2
          let totalUsers := userIds.length
          if totalUsers > 0 then
            let portion := pool / (totalUsers : ℚ)
            distLoop stakeId portion totalUsers userIds 0 0 db2
          else (0, db2)
        else (0, db2)
      let distributed := dd.1
      let db3 := dd.2
      -- company metrics: increment `totalCompanyTransfers` by what actually moved
      let m : CompanyMetrics :=
        match db3.metrics with
        | none => { totalCompanyStakes := 0,
                    totalCompanyTransfers := round0 (distributed + referralMoved) }
        | some mm =>
          { mm with totalCompanyTransfers :=
              mm.totalCompanyTransfers + round0 (distributed + referralMoved) }
      let db4 := { db3 with metrics := some m }
      -- mark stake and job as done
      let db5 :=
        match getd db4.stakes stakeId with
        | some s =>
          let s2 : Stake :=
            { s with
              distributionProcessed := true,
              distributionAmount := round0 distributed,
              referralMovedAmt := round0 referralMoved }
          { db4 with stakes := setd db4.stakes stakeId s2 }
        | none => db4   -- `runForStake` only invokes on existing stakes
      let db6 :=
        match getd db5.jobs stakeId with
        | some j =>
          let j2 : DistributionJob := { j with done := true, locked := false }
          { db5 with jobs := setd db5.jobs stakeId j2 }
        | none => db5
      { res := .ok, referralMoved := referralMoved, distributed := distributed, db := db6 }

/-- `runForStake`: fetch the stake document, then `handleStake`. -/
def runForStake (stakeId : String) (db : DB) : RunOut :=
  match getd db.stakes stakeId with
  | none => { res := .stakeNotFound, referralMoved := 0, distributed := 0, db := db }
  | some s => handleStake stakeId s db


/-! ### Concrete stores for the worked examples -/

def refUserC : User :=
  { accountBalance := 0, returnsWallet := 0, totalDeposited := 0,
    referralCode := some "RC", referrerCode := none, paidRefereesIds := [] }

def newUserC : User :=
  { accountBalance := 0, returnsWallet := 0, totalDeposited := 0,
    referralCode := none, referrerCode := some "RC", paidRefereesIds := [] }

def depositDB : DB :=
  { users := [("r", refUserC), ("a", newUserC)], stakes := [], deposits := [],
    referrals := [], transfers := [], jobs := [], metrics := none }

def unequalMetrics : CompanyMetrics :=
  { totalCompanyStakes := 5, totalCompanyTransfers := 7 }

def metricsDB : DB := { depositDB with metrics := some unequalMetrics }

def accrualUser : User :=
  { accountBalance := 0, returnsWallet := 0, totalDeposited := 2200,
    referralCode := none, referrerCode := none, paidRefereesIds := [] }

def accrualStake : Stake :=
  { stakeId := "T", userId := "a", principal := 2000, dailyRate := DAILY_RATE,
    totalDays := 20, remainingDays := 20, earnedSoFar := 0, status := .active,
    lastProcessedDate := none, depositRef := "T", distributionProcessed := false,
    distributionAmount := 0, referralMovedAmt := 0 }

def accrualDB : DB :=
  { users := [("a", accrualUser)], stakes := [("T", accrualStake)], deposits := [],
    referrals := [], transfers := [], jobs := [], metrics := none }

/-- Single-user single-stake store parametrized by the evolving fields of the
20-day worked example (principal 2000, rate 10%). -/
def accStakeAt (e : ℚ) (rem : ℤ) (stat : StakeStatus) (last : Option String) : Stake :=
  { accrualStake with
    earnedSoFar := e, remainingDays := rem, status := stat,
    lastProcessedDate := last }

def accDB (w e : ℚ) (rem : ℤ) (stat : StakeStatus) (last : Option String) : DB :=
  { users := [("a", { accrualUser with returnsWallet := w })],
    stakes := [("T", accStakeAt e rem stat last)],
    deposits := [], referrals := [], transfers := [], jobs := [], metrics := none }

def accrualDates : List String :=
  ["d01", "d02", "d03", "d04", "d05", "d06", "d07", "d08", "d09", "d10",
   "d11", "d12", "d13", "d14", "d15", "d16", "d17", "d18", "d19", "d20"]

def accrualFinal : DB :=
  accrualDates.foldl (fun db d => runDailyReturns d db) accrualDB

def walletUser (w : ℚ) : User :=
  { accountBalance := 0, returnsWallet := w, totalDeposited := 0,
    referralCode := none, referrerCode := none, paidRefereesIds := [] }

def refRecC : Referral :=
  { referrerId := "r", refereeId := "a", depositRef := "S1", bonus := 440,
    rate := REFERRAL_BONUS_RATE, amount := 2200 }

/-- A referrer whose `returnsWallet` was fully swept before the referral step
of the distribution run (reachable: an earlier distribution can empty it). -/
def sweptDB : DB :=
  { users := [("r", walletUser 0)], stakes := [], deposits := [],
    referrals := [refRecC], transfers := [], jobs := [], metrics := none }

def richDB : DB :=
  { users := [("r", walletUser 100)], stakes := [], deposits := [],
    referrals := [refRecC], transfers := [], jobs := [], metrics := none }

def priorTransfer : Transfer := { amount := 77, userId := "r" }

def replayDB : DB := { richDB with transfers := [("REF-S1-r", priorTransfer)] }

def c1Stake : Stake :=
  { stakeId := "S1", userId := "a", principal := 1000, dailyRate := DAILY_RATE,
    totalDays := 20, remainingDays := 20, earnedSoFar := 300, status := .active,
    lastProcessedDate := none, depositRef := "S1", distributionProcessed := false,
    distributionAmount := 0, referralMovedAmt := 0 }

def c1Referral : Referral := { refRecC with bonus := 200 }

def c1DB : DB :=
  { users := [("a", walletUser 300), ("r", walletUser 500)],
    stakes := [("S1", c1Stake)], deposits := [], referrals := [c1Referral],
    transfers := [], jobs := [], metrics := none }

def doneJob : DistributionJob :=
  { locked := false, done := true, cursor := 0, totalUsers := 0,
    totalDistributed := 0, reason := none, error := none }

def doneDB : DB := { c1DB with jobs := [("S1", doneJob)] }

def lockedJob : DistributionJob := { doneJob with done := false, locked := true }

def lockedDB : DB := { c1DB with jobs := [("S1", lockedJob)] }

end Oblinks

namespace Oblinks

/-! ## Document-store lemmas -/

theorem getd_nil {α : Type} (k : String) : getd ([] : List (String × α)) k = none := rfl

theorem getd_cons {α : Type} (p : String × α) (l : List (String × α)) (k : String) :
    getd (p :: l) k = if p.1 = k then some p.2 else getd l k := by
  unfold getd
  by_cases h : p.1 = k
  · rw [List.find?_cons_of_pos _ (by simp [h]), if_pos h]
    rfl
  · rw [List.find?_cons_of_neg _ (by simp [h]), if_neg h]

theorem getd_setd_self {α : Type} (l : List (String × α)) (k : String) (v : α) :
    getd (setd l k v) k = some v := by
  induction l with
  | nil => simp [setd, getd_cons]
  | cons p rest ih =>
    by_cases h : p.1 = k
    · simp [setd, h, getd_cons]
    · simp [setd, h, getd_cons, ih]

theorem getd_setd_ne {α : Type} (l : List (String × α)) (k k' : String) (v : α)
    (h : k' ≠ k) : getd (setd l k v) k' = getd l k' := by
  induction l with
  | nil => simp [setd, getd_cons, getd_nil, Ne.symm h]
  | cons p rest ih =>
    by_cases hp : p.1 = k
    · subst hp
      simp [setd, getd_cons, Ne.symm h]
    · simp [setd, hp, getd_cons, ih]

theorem keys_setd_of_getd {α : Type} (l : List (String × α)) (k : String) (v w : α)
    (h : getd l k = some w) : (setd l k v).map Prod.fst = l.map Prod.fst := by
  induction l with
  | nil => simp [getd_nil] at h
  | cons p rest ih =>
    rw [getd_cons] at h
    by_cases hp : p.1 = k
    · simp [setd, hp]
    · simp only [hp, if_false] at h
      simp [setd, hp, ih h]

theorem mem_setd {α : Type} (l : List (String × α)) (k : String) (v : α)
    (q : String × α) (h : q ∈ setd l k v) : q = (k, v) ∨ q ∈ l := by
  induction l with
  | nil => simpa [setd] using h
  | cons p rest ih =>
    by_cases hp : p.1 = k
    · simp only [setd, hp, if_true] at h
      rcases List.mem_cons.mp h with h1 | h1
      · exact Or.inl h1
      · exact Or.inr (List.mem_cons_of_mem _ h1)
    · simp only [setd, hp, if_false] at h
      rcases List.mem_cons.mp h with h1 | h1
      · exact Or.inr (h1 ▸ List.mem_cons_self _ _)
      · rcases ih h1 with h2 | h2
        · exact Or.inl h2
        · exact Or.inr (List.mem_cons_of_mem _ h2)

theorem getd_of_mem_nodup {α : Type} (l : List (String × α))
    (hnd : (l.map Prod.fst).Nodup) (p : String × α) (hm : p ∈ l) :
    getd l p.1 = some p.2 := by
  induction l with
  | nil => simp at hm
  | cons q rest ih =>
    rcases List.mem_cons.mp hm with h1 | h1
    · subst h1; simp [getd_cons]
    · have hq : q.1 ≠ p.1 := by
        intro he
        have : q.1 ∈ rest.map Prod.fst := he ▸ List.mem_map_of_mem Prod.fst h1
        exact (List.nodup_cons.mp hnd).1 this
      rw [getd_cons, if_neg hq]
      exact ih (List.nodup_cons.mp hnd).2 h1

theorem mem_of_getd_eq_some {α : Type} (l : List (String × α)) (k : String) (v : α)
    (h : getd l k = some v) : (k, v) ∈ l := by
  induction l with
  | nil => simp [getd_nil] at h
  | cons p rest ih =>
    rw [getd_cons] at h
    by_cases hp : p.1 = k
    · rw [if_pos hp, Option.some_inj] at h
      have hpk : p = (k, v) := Prod.ext_iff.mpr ⟨hp, h⟩
      rw [← hpk]
      exact List.mem_cons_self _ _
    · rw [if_neg hp] at h
      exact List.mem_cons_of_mem _ (ih h)

theorem getd_isSome_setd {α : Type} (l : List (String × α)) (k k' : String) (v : α) :
    (getd (setd l k v) k').isSome = ((getd l k').isSome ∨ k' = k : Bool) := by
  by_cases h : k' = k
  · subst h; simp [getd_setd_self]
  · simp [getd_setd_ne l k k' v h, h]

theorem getd_setd_none {α : Type} (l : List (String × α)) (k k' : String) (v : α)
    (h : getd (setd l k v) k' = none) : getd l k' = none := by
  by_cases hk : k' = k
  · subst hk; simp [getd_setd_self] at h
  · rwa [getd_setd_ne l k k' v hk] at h


/-! ## Rounding arithmetic -/

theorem round2_int_div_100 (z : ℤ) : round2 ((z : ℚ) / 100) = (z : ℚ) / 100 := by
  unfold round2
  rw [div_mul_cancel₀ _ (by norm_num : (100 : ℚ) ≠ 0), round_intCast]

theorem exists_int_div_100 (a : ℚ) (h : round2 a = a) : ∃ z : ℤ, a = (z : ℚ) / 100 := by
  refine ⟨round (a * 100), ?_⟩
  conv_lhs => rw [← h]
  rfl

theorem round2_sub_of_round2 (a b : ℚ) (ha : round2 a = a) (hb : round2 b = b) :
    round2 (a - b) = a - b := by
  obtain ⟨m, hm⟩ := exists_int_div_100 a ha
  obtain ⟨n, hn⟩ := exists_int_div_100 b hb
  subst hm; subst hn
  rw [div_sub_div_same, ← Int.cast_sub, round2_int_div_100]

theorem round2_round2 (a : ℚ) : round2 (round2 a) = round2 a :=
  round2_int_div_100 _

/-! ## Frame lemmas for the crediting sub-steps -/

theorem referralWrite_stakes (txRef : String) (amount : ℚ) (userId : String)
    (refEntry : Option (String × User)) (db : DB) :
    (referralWrite txRef amount userId refEntry db).stakes = db.stakes := by
  unfold referralWrite
  repeat' split <;> try rfl

theorem referralWrite_deposits (txRef : String) (amount : ℚ) (userId : String)
    (refEntry : Option (String × User)) (db : DB) :
    (referralWrite txRef amount userId refEntry db).deposits = db.deposits := by
  unfold referralWrite
  repeat' split <;> try rfl

theorem referralWrite_metrics (txRef : String) (amount : ℚ) (userId : String)
    (refEntry : Option (String × User)) (db : DB) :
    (referralWrite txRef amount userId refEntry db).metrics = db.metrics := by
  unfold referralWrite
  repeat' split <;> try rfl

theorem markCredited_stakes (txRef : String) (db : DB) :
    (markCredited txRef db).stakes = db.stakes := by
  unfold markCredited
  repeat' split <;> try rfl

theorem markCredited_users (txRef : String) (db : DB) :
    (markCredited txRef db).users = db.users := by
  unfold markCredited
  repeat' split <;> try rfl

end Oblinks

namespace Oblinks

theorem markCredited_metrics (txRef : String) (db : DB) :
    (markCredited txRef db).metrics = db.metrics := by
  unfold markCredited
  repeat' split <;> try rfl

theorem markCredited_referrals (txRef : String) (db : DB) :
    (markCredited txRef db).referrals = db.referrals := by
  unfold markCredited
  repeat' split <;> try rfl

theorem referralWrite_users_totalDeposited (txRef : String) (amount : ℚ) (userId : String)
    (refEntry : Option (String × User)) (db : DB) (k : String) (u2 : User)
    (h : getd (referralWrite txRef amount userId refEntry db).users k = some u2) :
    ∃ u0, getd db.users k = some u0 ∧ u2.totalDeposited = u0.totalDeposited := by
  unfold referralWrite at h
  rcases refEntry with _ | ⟨rid, rd⟩
  · exact ⟨u2, h, rfl⟩
  · dsimp only at h
    by_cases hg : userId ∈ rd.paidRefereesIds
    · rw [if_pos hg] at h
      exact ⟨u2, h, rfl⟩
    · rw [if_neg hg] at h
      rcases hc : getd db.users rid with _ | cur
      · rw [hc] at h
        exact ⟨u2, h, rfl⟩
      · rw [hc] at h
        dsimp only at h
        by_cases hk : k = rid
        · subst hk
          rw [getd_setd_self] at h
          exact ⟨cur, hc, by rw [← Option.some_inj.mp h]⟩
        · rw [getd_setd_ne _ _ _ _ hk] at h
          exact ⟨u2, h, rfl⟩

theorem referralWrite_users_isSome (txRef : String) (amount : ℚ) (userId : String)
    (refEntry : Option (String × User)) (db : DB) (k : String)
    (h : (getd db.users k).isSome) :
    (getd (referralWrite txRef amount userId refEntry db).users k).isSome := by
  unfold referralWrite
  rcases refEntry with _ | ⟨rid, rd⟩
  · exact h
  · dsimp only
    by_cases hg : userId ∈ rd.paidRefereesIds
    · rw [if_pos hg]; exact h
    · rw [if_neg hg]
      rcases hc : getd db.users rid with _ | cur
      · exact h
      · dsimp only
        by_cases hk : k = rid
        · subst hk; rw [getd_setd_self]; rfl
        · rw [getd_setd_ne _ _ _ _ hk]; exact h

/-- After the referral write and the credited flag, the crediting user's
document is still present with the updated `totalDeposited`. -/
theorem creditWrites_users (txRef : String) (amount : ℚ) (userId : String)
    (refEntry : Option (String × User)) (d3 : DB) (uDep : User)
    (hu : getd d3.users userId = some uDep) :
    ∃ u2, getd (markCredited txRef (referralWrite txRef amount userId refEntry d3)).users
        userId = some u2 ∧ u2.totalDeposited = uDep.totalDeposited := by
  have h2 : (getd (referralWrite txRef amount userId refEntry d3).users userId).isSome :=
    referralWrite_users_isSome txRef amount userId refEntry d3 userId (by rw [hu]; rfl)
  obtain ⟨u2, hu2⟩ := Option.isSome_iff_exists.mp h2
  obtain ⟨u0, hu0, he⟩ :=
    referralWrite_users_totalDeposited txRef amount userId refEntry d3 userId u2 hu2
  rw [hu] at hu0
  refine ⟨u2, ?_, ?_⟩
  · rw [markCredited_users]; exact hu2
  · rw [he, ← Option.some_inj.mp hu0]

/-- Success path of the crediting transaction for a fresh stake reference. -/
theorem creditTx_fresh_spec (txRef : String) (amount netPrincipal : ℚ) (userId : String)
    (db1 : DB) (u : User)
    (hu : getd db1.users userId = some u)
    (hs : getd db1.stakes txRef = none) :
    ∃ db5, creditTx txRef amount netPrincipal userId db1 = (none, db5) ∧
      getd db5.stakes txRef =
        some (newStakeDoc txRef userId netPrincipal (chooseDailyRate db1)) ∧
      (∀ d0, getd db1.deposits txRef = some d0 →
        getd db5.deposits txRef = some { d0 with credited := true }) ∧
      (∃ u2, getd db5.users userId = some u2 ∧
        u2.totalDeposited = round2 (u.totalDeposited + amount)) ∧
      db5.metrics = db1.metrics := by
  unfold creditTx
  rw [hu]
  dsimp only
  simp only [hs, Option.isSome_none, Bool.false_eq_true, if_false]
  refine ⟨_, rfl, ?_, ?_, ?_, ?_⟩
  · rw [markCredited_stakes, referralWrite_stakes]
    dsimp only
    exact getd_setd_self _ _ _
  · intro d0 hd0
    unfold markCredited
    rw [referralWrite_deposits]
    dsimp only
    rw [hd0]
    exact getd_setd_self _ _ _
  · exact creditWrites_users txRef amount userId (findReferrer db1 u) _
      { u with totalDeposited := round2 (u.totalDeposited + amount) }
      (getd_setd_self _ _ _)
  · rw [markCredited_metrics, referralWrite_metrics]

end Oblinks

namespace Oblinks

theorem incrementCompanyStakes_stakes (delta : ℚ) (db : DB) :
    (incrementCompanyStakes delta db).stakes = db.stakes := rfl

theorem incrementCompanyStakes_users (delta : ℚ) (db : DB) :
    (incrementCompanyStakes delta db).users = db.users := rfl

theorem incrementCompanyStakes_deposits (delta : ℚ) (db : DB) :
    (incrementCompanyStakes delta db).deposits = db.deposits := rfl

theorem incrementCompanyStakes_referrals (delta : ℚ) (db : DB) :
    (incrementCompanyStakes delta db).referrals = db.referrals := rfl

/-- Master lemma: success path of `createStakeAndCredit` on a fresh stake
reference for an existing user and a not-yet-credited deposit. -/
theorem createStakeAndCredit_fresh_spec (txRef : String) (amount : ℚ) (userId : String)
    (db : DB) (u : User)
    (hcred : (getd db.deposits txRef).elim false Deposit.credited = false)
    (hu : getd db.users userId = some u)
    (hs : getd db.stakes txRef = none) :
    ∃ dbF, createStakeAndCredit txRef amount userId db = (none, dbF) ∧
      getd dbF.stakes txRef =
        some (newStakeDoc txRef userId (round2 (amount / FEE_DIVISOR)) (chooseDailyRate db)) ∧
      (∃ d, getd dbF.deposits txRef = some d ∧ d.credited = true ∧
          d.amount = amount ∧
          d.netPrincipal = some (round2 (amount / FEE_DIVISOR)) ∧
          d.depositFee = some (round2 (amount - round2 (amount / FEE_DIVISOR)))) ∧
      (∃ u2, getd dbF.users userId = some u2 ∧
          u2.totalDeposited = round2 (u.totalDeposited + amount)) := by
  unfold createStakeAndCredit
  rw [hcred]
  simp only [Bool.false_eq_true, if_false]
  obtain ⟨db5, hTx, hStake, hDep, hUsers, hMet⟩ :=
    creditTx_fresh_spec txRef amount (round2 (amount / FEE_DIVISOR)) userId
      (depositWrite txRef amount userId db) u hu hs
  rw [hTx]
  refine ⟨_, rfl, ?_, ?_, ?_⟩
  · rw [incrementCompanyStakes_stakes]
    exact hStake
  · rw [incrementCompanyStakes_deposits]
    refine ⟨_, hDep _ (getd_setd_self _ _ _), rfl, rfl, rfl, rfl⟩
  · rw [incrementCompanyStakes_users]
    exact hUsers

end Oblinks

namespace Oblinks

/-- Idempotency gate: once the deposit is credited, the whole call returns
immediately without touching the store. -/
theorem createStakeAndCredit_of_credited (txRef : String) (amount : ℚ) (userId : String)
    (db : DB) (h : (getd db.deposits txRef).elim false Deposit.credited = true) :
    createStakeAndCredit txRef amount userId db = (none, db) := by
  unfold createStakeAndCredit
  rw [h]
  simp

/-- C2: for a confirmed payment reference, running `createStakeAndCredit`
twice produces exactly one `Stake` and one `totalDeposited` increment; the
second call sees `Deposit.credited = true` and returns with the store
unchanged. -/
theorem c2_creditDeposit_idempotent (txRef : String) (amount : ℚ) (userId : String)
    (db : DB) (u : User)
    (hcred : (getd db.deposits txRef).elim false Deposit.credited = false)
    (hu : getd db.users userId = some u)
    (hs : getd db.stakes txRef = none) :
    ∃ dbF, createStakeAndCredit txRef amount userId db = (none, dbF) ∧
      createStakeAndCredit txRef amount userId dbF = (none, dbF) ∧
      (getd dbF.stakes txRef).isSome ∧
      (∃ u2, getd dbF.users userId = some u2 ∧
        u2.totalDeposited = round2 (u.totalDeposited + amount)) := by
  obtain ⟨dbF, hrun, hStake, ⟨d, hd, hdc, -, -, -⟩, hUsers⟩ :=
    createStakeAndCredit_fresh_spec txRef amount userId db u hcred hu hs
  refine ⟨dbF, hrun, ?_, ?_, hUsers⟩
  · exact createStakeAndCredit_of_credited txRef amount userId dbF (by rw [hd]; exact hdc)
  · rw [hStake]; rfl

theorem c2_creditDeposit_idempotent_witness :
    ∃ dbF, createStakeAndCredit "T1" 2200 "a" depositDB = (none, dbF) ∧
      createStakeAndCredit "T1" 2200 "a" dbF = (none, dbF) ∧
      (getd dbF.stakes "T1").isSome ∧
      (∃ u2, getd dbF.users "a" = some u2 ∧
        u2.totalDeposited = round2 (newUserC.totalDeposited + 2200)) :=
  c2_creditDeposit_idempotent "T1" 2200 "a" depositDB newUserC rfl rfl rfl

/-- C7: the stake's principal is the fee-reversed
`round2(gross / (1 + feeRate))`, the recorded fee is the complement, and the
worked example `gross = 2200 → net 2000, fee 200` holds.  The fee identity
`depositFee = gross − netPrincipal` uses that the gross amount is itself a
two-decimal currency value (`round2 amount = amount`), matching the integer
amounts the gateway delivers. -/
theorem c7_net_principal_and_fee :
    (∀ (txRef : String) (amount : ℚ) (userId : String) (db : DB) (u : User),
      (getd db.deposits txRef).elim false Deposit.credited = false →
      getd db.users userId = some u →
      getd db.stakes txRef = none →
      round2 amount = amount →
      ∃ dbF d s, createStakeAndCredit txRef amount userId db = (none, dbF) ∧
        getd dbF.deposits txRef = some d ∧
        getd dbF.stakes txRef = some s ∧
        d.netPrincipal = some (round2 (amount / (1 + DEPOSIT_FEE_RATE))) ∧
        d.depositFee = some (amount - round2 (amount / (1 + DEPOSIT_FEE_RATE))) ∧
        s.principal = round2 (amount / (1 + DEPOSIT_FEE_RATE))) ∧
    round2 ((2200 : ℚ) / (1 + DEPOSIT_FEE_RATE)) = 2000 ∧
    (2200 : ℚ) - round2 ((2200 : ℚ) / (1 + DEPOSIT_FEE_RATE)) = 200 := by
  refine ⟨?_, ?_, ?_⟩
  · intro txRef amount userId db u hcred hu hs ha
    obtain ⟨dbF, hrun, hStake, ⟨d, hd, hdc, hda, hdn, hdf⟩, -⟩ :=
      createStakeAndCredit_fresh_spec txRef amount userId db u hcred hu hs
    refine ⟨dbF, d, _, hrun, hd, hStake, hdn, ?_, rfl⟩
    rw [hdf, round2_sub_of_round2 amount _ ha (round2_round2 _)]
    rfl
  · norm_num [round2, round_eq, DEPOSIT_FEE_RATE]
  · norm_num [round2, round_eq, DEPOSIT_FEE_RATE]

theorem c7_net_principal_and_fee_witness :
    ∃ dbF d s, createStakeAndCredit "T1" 2200 "a" depositDB = (none, dbF) ∧
      getd dbF.deposits "T1" = some d ∧
      getd dbF.stakes "T1" = some s ∧
      d.netPrincipal = some 2000 ∧ d.depositFee = some 200 ∧ s.principal = 2000 := by
  obtain ⟨dbF, d, s, h1, h2, h3, h4, h5, h6⟩ :=
    c7_net_principal_and_fee.1 "T1" 2200 "a" depositDB newUserC rfl rfl rfl
      (by norm_num [round2, round_eq])
  have hn : round2 ((2200 : ℚ) / (1 + DEPOSIT_FEE_RATE)) = 2000 :=
    c7_net_principal_and_fee.2.1
  refine ⟨dbF, d, s, h1, h2, h3, ?_, ?_, ?_⟩
  · rw [h4, hn]
  · rw [h5, hn]; norm_num
  · rw [h6, hn]

/-- C10: the created stake's daily rate is read from company metrics inside
the crediting transaction: `0.12` when `totalCompanyStakes` equals
`totalCompanyTransfers` (a missing metrics document reads as `0 = 0`),
otherwise the default `DAILY_RATE = 0.10`. -/
theorem c10_metrics_based_rate (txRef : String) (amount : ℚ) (userId : String)
    (db : DB) (u : User)
    (hcred : (getd db.deposits txRef).elim false Deposit.credited = false)
    (hu : getd db.users userId = some u)
    (hs : getd db.stakes txRef = none) :
    ∃ dbF s, createStakeAndCredit txRef amount userId db = (none, dbF) ∧
      getd dbF.stakes txRef = some s ∧
      s.dailyRate =
        (if (db.metrics.getD CompanyMetrics.zero).totalCompanyStakes =
            (db.metrics.getD CompanyMetrics.zero).totalCompanyTransfers
         then 12 / 100 else DAILY_RATE) := by
  obtain ⟨dbF, hrun, hStake, -, -⟩ :=
    createStakeAndCredit_fresh_spec txRef amount userId db u hcred hu hs
  exact ⟨dbF, _, hrun, hStake, rfl⟩

theorem c10_metrics_based_rate_witness :
    (∃ dbF s, createStakeAndCredit "T1" 2200 "a" depositDB = (none, dbF) ∧
      getd dbF.stakes "T1" = some s ∧ s.dailyRate = 12 / 100) ∧
    (∃ dbF s, createStakeAndCredit "T1" 2200 "a" metricsDB = (none, dbF) ∧
      getd dbF.stakes "T1" = some s ∧ s.dailyRate = 10 / 100) := by
  constructor
  · obtain ⟨dbF, s, h1, h2, h3⟩ :=
      c10_metrics_based_rate "T1" 2200 "a" depositDB newUserC rfl rfl rfl
    exact ⟨dbF, s, h1, h2, by rw [h3]; rfl⟩
  · obtain ⟨dbF, s, h1, h2, h3⟩ :=
      c10_metrics_based_rate "T1" 2200 "a" metricsDB newUserC rfl rfl rfl
    refine ⟨dbF, s, h1, h2, ?_⟩
    rw [h3]
    norm_num [metricsDB, unequalMetrics, DAILY_RATE]

end Oblinks

namespace Oblinks

/-- C5: re-invoking the distribution on a `done` job fails with
`AlreadyCompleted` and leaves the whole store (transfers, wallets, jobs)
untouched; a `locked` job fails with `AlreadyLocked`, also untouched;
otherwise the entry transaction sets `locked := true` on the job document. -/
theorem c5_job_entry_gate (stakeId : String) (db : DB) (s : Stake)
    (hs : getd db.stakes stakeId = some s) :
    (∀ j, getd db.jobs stakeId = some j → j.done = true →
      runForStake stakeId db =
        { res := .alreadyCompleted, referralMoved := 0, distributed := 0, db := db }) ∧
    (∀ j, getd db.jobs stakeId = some j → j.done = false → j.locked = true →
      runForStake stakeId db =
        { res := .alreadyLocked, referralMoved := 0, distributed := 0, db := db }) ∧
    (∀ db1, jobEntry db stakeId = .ok db1 →
      ∃ j1, getd db1.jobs stakeId = some j1 ∧ j1.locked = true ∧ j1.done = false) := by
  refine ⟨?_, ?_, ?_⟩
  · intro j hj hdone
    unfold runForStake
    rw [hs]
    dsimp only
    unfold handleStake jobEntry
    rw [hj]
    dsimp only
    rw [hdone]
    simp
  · intro j hj hdone hlock
    unfold runForStake
    rw [hs]
    dsimp only
    unfold handleStake jobEntry
    rw [hj]
    dsimp only
    rw [hdone, hlock]
    simp
  · intro db1 h1
    unfold jobEntry at h1
    rcases hj : getd db.jobs stakeId with _ | j
    · rw [hj] at h1
      dsimp only at h1
      obtain rfl : _ = db1 := Except.ok.inj h1
      exact ⟨DistributionJob.fresh, getd_setd_self _ _ _, rfl, rfl⟩
    · rw [hj] at h1
      dsimp only at h1
      by_cases hdone : j.done
      · rw [hdone] at h1
        simp at h1
      · rw [Bool.eq_false_iff.mpr hdone] at h1
        by_cases hlock : j.locked
        · rw [hlock] at h1
          simp at h1
        · rw [Bool.eq_false_iff.mpr hlock] at h1
          simp only [Bool.false_eq_true, if_false] at h1
          obtain rfl : _ = db1 := Except.ok.inj h1
          exact ⟨_, getd_setd_self _ _ _, rfl, rfl⟩

theorem c5_job_entry_gate_witness :
    (runForStake "S1" doneDB =
      { res := .alreadyCompleted, referralMoved := 0, distributed := 0, db := doneDB }) ∧
    (runForStake "S1" lockedDB =
      { res := .alreadyLocked, referralMoved := 0, distributed := 0, db := lockedDB }) ∧
    (∃ j1, ∀ db1, jobEntry c1DB "S1" = Except.ok db1 →
      getd db1.jobs "S1" = some j1 ∧ j1.locked = true ∧ j1.done = false) := by
  refine ⟨?_, ?_, ?_⟩
  · exact (c5_job_entry_gate "S1" doneDB c1Stake rfl).1 doneJob rfl rfl
  · exact (c5_job_entry_gate "S1" lockedDB c1Stake rfl).2.1 lockedJob rfl rfl rfl
  · obtain ⟨j1, hj1, hl, hd⟩ :=
      (c5_job_entry_gate "S1" c1DB c1Stake rfl).2.2
        { c1DB with jobs := setd c1DB.jobs "S1" DistributionJob.fresh } rfl
    exact ⟨j1, fun db1 h1 => by rw [← Except.ok.inj h1]; exact ⟨hj1, hl, hd⟩⟩

end Oblinks

namespace Oblinks

/-- C6 counterexample: with a logged referral record (`bonus = 440`) whose
referrer's `returnsWallet` is 0 at transfer time and no prior transfer, the
referral step writes *no* `Transfer` document `REF-S1-r` (the claim asserts
one is always written). -/
theorem c6_counterexample_no_transfer_written :
    ¬ ((getd (moveReferralBonus sweptDB "r" "S1" 440).2.transfers
        "REF-S1-r").isSome = true) := by
  have h : moveReferralBonus sweptDB "r" "S1" 440 = (0, sweptDB) := by
    unfold moveReferralBonus
    norm_num [sweptDB, walletUser, getd, setd, List.find?]
  rw [h]
  simp [sweptDB, getd, List.find?]

/-- C6 (amended): for a stake with a logged referral record, the referral
step moves exactly `min(bonus, referrer.returnsWallet)` and, when that
amount is positive, writes one `Transfer` with deterministic id
`REF-<stakeId>-<referrerId>` (recorded amount `round0` of the move); when
the minimum is not positive nothing is moved and no transfer is written;
if a transfer with that id already exists, nothing moves and the recorded
amount is reported. -/
theorem c6_referral_step_amended (db : DB) (referrerId stakeId : String)
    (bonus : ℚ) (u : User)
    (hu : getd db.users referrerId = some u) :
    (∀ t, getd db.transfers ("REF-" ++ stakeId ++ "-" ++ referrerId) = some t →
      moveReferralBonus db referrerId stakeId bonus = (t.amount, db)) ∧
    (getd db.transfers ("REF-" ++ stakeId ++ "-" ++ referrerId) = none →
      0 < min u.returnsWallet bonus →
      (moveReferralBonus db referrerId stakeId bonus).1 = min u.returnsWallet bonus ∧
      (∃ u2, getd (moveReferralBonus db referrerId stakeId bonus).2.users referrerId = some u2 ∧
        u2.returnsWallet = u.returnsWallet - min u.returnsWallet bonus ∧
        u2.accountBalance = u.accountBalance + min u.returnsWallet bonus) ∧
      (∃ t, getd (moveReferralBonus db referrerId stakeId bonus).2.transfers
          ("REF-" ++ stakeId ++ "-" ++ referrerId) = some t ∧
        t.amount = round0 (min u.returnsWallet bonus) ∧ t.userId = referrerId)) ∧
    (getd db.transfers ("REF-" ++ stakeId ++ "-" ++ referrerId) = none →
      min u.returnsWallet bonus ≤ 0 →
      moveReferralBonus db referrerId stakeId bonus = (0, db)) := by
  refine ⟨?_, ?_, ?_⟩
  · intro t ht
    unfold moveReferralBonus
    dsimp only
    rw [ht]
  · intro hT hpos
    unfold moveReferralBonus
    dsimp only
    rw [hT, hu]
    dsimp only
    rw [if_neg (not_le.mpr hpos)]
    refine ⟨rfl, ?_, ?_⟩
    · exact ⟨_, getd_setd_self _ _ _, rfl, rfl⟩
    · exact ⟨_, getd_setd_self _ _ _, rfl, rfl⟩
  · intro hT hz
    unfold moveReferralBonus
    dsimp only
    rw [hT, hu]
    dsimp only
    rw [if_pos hz]

theorem c6_referral_step_amended_witness :
    (moveReferralBonus replayDB "r" "S1" 440 = (77, replayDB)) ∧
    ((moveReferralBonus richDB "r" "S1" 440).1 = 100 ∧
      (∃ t, getd (moveReferralBonus richDB "r" "S1" 440).2.transfers "REF-S1-r" = some t ∧
        t.amount = 100)) := by
  have hmin : min (walletUser 100).returnsWallet (440 : ℚ) = 100 := by
    norm_num [walletUser]
  constructor
  · have := (c6_referral_step_amended replayDB "r" "S1" 440 (walletUser 100) rfl).1
      priorTransfer rfl
    simpa [priorTransfer] using this
  · obtain ⟨h1, -, ⟨t, ht, hta, -⟩⟩ :=
      (c6_referral_step_amended richDB "r" "S1" 440 (walletUser 100) rfl).2.1 rfl
        (by rw [hmin]; norm_num)
    refine ⟨by rw [h1, hmin], ⟨t, ht, ?_⟩⟩
    rw [hta, hmin]
    norm_num [round0, round_eq]

end Oblinks

namespace Oblinks

theorem accDB_run_active (d : String) (w e : ℚ) (rem : ℤ) (last : Option String)
    (hrem : 0 < rem) (hlast : last ≠ some d) :
    runDailyReturns d (accDB w e rem .active last) =
      accDB (w + 200) (e + 200) (rem - 1)
        (if rem - 1 ≤ 0 then .completed else .active) (some d) := by
  have hpage : dailyPage (accDB w e rem .active last) =
      [("T", accStakeAt e rem .active last)] := by
    unfold dailyPage accDB
    simp [List.filter, sortBy, insertBy, accStakeAt, accrualStake, hrem]
  have hdaily : round2 ((2000 : ℚ) * DAILY_RATE) = 200 := by
    norm_num [round2, round_eq, DAILY_RATE]
  have hr0 : ¬ (DAILY_RATE = (0 : ℚ)) := by norm_num [DAILY_RATE]
  have hsa : ¬ (("a" : String) = "") := by decide
  unfold runDailyReturns
  rw [hpage]
  simp only [List.foldl_cons, List.foldl_nil]
  unfold processStakeDaily
  simp [accStakeAt, accrualStake, accDB, accrualUser, getd, setd, List.find?,
    not_le.mpr hrem, hlast, hsa, hr0, hdaily, sub_nonpos]

end Oblinks

namespace Oblinks

theorem accDB_run_mid (d : String) {w e : ℚ} {rem : ℤ} {last : Option String}
    (hrem : 1 < rem) (hlast : last ≠ some d) :
    runDailyReturns d (accDB w e rem .active last) =
      accDB (w + 200) (e + 200) (rem - 1) .active (some d) := by
  rw [accDB_run_active d w e rem last (by omega) hlast, if_neg (by omega)]

theorem accDB_run_last (d : String) {w e : ℚ} {rem : ℤ} {last : Option String}
    (hrem : rem = 1) (hlast : last ≠ some d) :
    runDailyReturns d (accDB w e rem .active last) =
      accDB (w + 200) (e + 200) 0 .completed (some d) := by
  subst hrem
  rw [accDB_run_active d w e 1 last (by omega) hlast]
  norm_num

/-- The 20-day worked example evaluated: 200 per day for 20 days. -/
theorem accrualFinal_eq :
    accrualFinal = accDB 4000 4000 0 .completed (some "d20") := by
  show accrualDates.foldl (fun db d => runDailyReturns d db) accrualDB = _
  rw [show accrualDB = accDB 0 0 20 .active none from rfl]
  simp only [accrualDates, List.foldl_cons, List.foldl_nil]
  rw [accDB_run_mid "d01"]
  rw [accDB_run_mid "d02"]
  rw [accDB_run_mid "d03"]
  rw [accDB_run_mid "d04"]
  rw [accDB_run_mid "d05"]
  rw [accDB_run_mid "d06"]
  rw [accDB_run_mid "d07"]
  rw [accDB_run_mid "d08"]
  rw [accDB_run_mid "d09"]
  rw [accDB_run_mid "d10"]
  rw [accDB_run_mid "d11"]
  rw [accDB_run_mid "d12"]
  rw [accDB_run_mid "d13"]
  rw [accDB_run_mid "d14"]
  rw [accDB_run_mid "d15"]
  rw [accDB_run_mid "d16"]
  rw [accDB_run_mid "d17"]
  rw [accDB_run_mid "d18"]
  rw [accDB_run_mid "d19"]
  rw [accDB_run_last "d20"]
  · norm_num [accDB, accStakeAt]
  all_goals decide

end Oblinks

namespace Oblinks

/-- C9: one accrual transaction on an active, unprocessed stake increments
the owner's `returnsWallet` and the stake's `earnedSoFar` by
`daily = round2(principal · dailyRate)`, decrements `remainingDays`, stamps
`lastProcessedDate`, and sets `status = completed` exactly when
`remainingDays` reaches 0; the worked example (principal 2000, rate 10%)
accrues 200/day for 20 days, ending at `earnedSoFar = 4000`,
`remainingDays = 0`, `status = completed`. -/
theorem c9_accrual_transaction_effects :
    (∀ (today sid : String) (db : DB) (s : Stake) (u : User),
      getd db.stakes sid = some s →
      s.userId ≠ "" →
      s.status = .active →
      0 < s.remainingDays →
      s.lastProcessedDate ≠ some today →
      s.dailyRate ≠ 0 →
      getd db.users s.userId = some u →
      ∃ s2 u2,
        getd (processStakeDaily today db sid s).stakes sid = some s2 ∧
        getd (processStakeDaily today db sid s).users s.userId = some u2 ∧
        u2.returnsWallet = u.returnsWallet + round2 (s.principal * s.dailyRate) ∧
        u2.accountBalance = u.accountBalance ∧
        s2.earnedSoFar = s.earnedSoFar + round2 (s.principal * s.dailyRate) ∧
        s2.remainingDays = s.remainingDays - 1 ∧
        s2.lastProcessedDate = some today ∧
        (s2.status = .completed ↔ s2.remainingDays = 0)) ∧
    ((getd accrualFinal.stakes "T").map Stake.earnedSoFar = some 4000 ∧
     (getd accrualFinal.stakes "T").map Stake.remainingDays = some 0 ∧
     (getd accrualFinal.stakes "T").map Stake.status = some StakeStatus.completed ∧
     (getd accrualFinal.users "a").map User.returnsWallet = some 4000) := by
  constructor
  · intro today sid db s u hs huid hst hrem hlast hrate hu
    unfold processStakeDaily
    rw [if_neg huid, if_neg (not_le.mpr hrem), if_neg hlast]
    dsimp only
    rw [if_neg hrate, hs]
    dsimp only
    rw [if_neg hlast, if_neg (not_le.mpr hrem), hu]
    dsimp only
    refine ⟨_, _, getd_setd_self _ _ _, getd_setd_self _ _ _, rfl, rfl, rfl, rfl, rfl, ?_⟩
    dsimp only
    constructor
    · intro hc
      by_cases hz : s.remainingDays - 1 ≤ 0
      · omega
      · rw [if_neg hz, hst] at hc
        exact absurd hc (by simp)
    · intro hz
      rw [if_pos (by omega)]
  · rw [accrualFinal_eq]
    exact ⟨rfl, rfl, rfl, rfl⟩

theorem c9_accrual_transaction_effects_witness :
    ∃ s2 u2,
      getd (processStakeDaily "d01" accrualDB "T" accrualStake).stakes "T" = some s2 ∧
      getd (processStakeDaily "d01" accrualDB "T" accrualStake).users "a" = some u2 ∧
      u2.returnsWallet = accrualUser.returnsWallet +
        round2 (accrualStake.principal * accrualStake.dailyRate) ∧
      u2.accountBalance = accrualUser.accountBalance ∧
      s2.earnedSoFar = accrualStake.earnedSoFar +
        round2 (accrualStake.principal * accrualStake.dailyRate) ∧
      s2.remainingDays = accrualStake.remainingDays - 1 ∧
      s2.lastProcessedDate = some "d01" ∧
      (s2.status = .completed ↔ s2.remainingDays = 0) :=
  c9_accrual_transaction_effects.1 "d01" "T" accrualDB accrualStake accrualUser
    rfl (by decide) rfl (by decide) (by decide)
    (by norm_num [accrualStake, DAILY_RATE]) rfl

end Oblinks

namespace Oblinks

theorem insertBy_perm {α : Type} (le : α → α → Bool) (x : α) (l : List α) :
    List.Perm (insertBy le x l) (x :: l) := by
  induction l with
  | nil => exact List.Perm.refl _
  | cons y ys ih =>
    unfold insertBy
    by_cases h : le x y
    · rw [if_pos h]
    · rw [if_neg h]
      exact (ih.cons y).trans (List.Perm.swap x y ys)

theorem sortBy_perm {α : Type} (le : α → α → Bool) (l : List α) :
    List.Perm (sortBy le l) l := by
  induction l with
  | nil => exact List.Perm.refl _
  | cons x xs ih => exact (insertBy_perm le x (sortBy le xs)).trans (ih.cons x)

theorem processStakeDaily_stakes_ne (today : String) (db : DB) (sid : String)
    (snap : Stake) (sid2 : String) (h : sid2 ≠ sid) :
    getd (processStakeDaily today db sid snap).stakes sid2 = getd db.stakes sid2 := by
  unfold processStakeDaily
  repeat' split
  all_goals first
    | rfl
    | exact getd_setd_ne _ _ _ _ h

theorem processStakeDaily_users_none (today : String) (db : DB) (sid : String)
    (snap : Stake) (x : String) (h : getd db.users x = none) :
    getd (processStakeDaily today db sid snap).users x = none := by
  unfold processStakeDaily
  repeat' split
  all_goals try exact h
  all_goals
    refine (getd_setd_ne _ _ _ _ fun he => ?_).trans h
    rw [he] at h
    simp_all

theorem processStakeDaily_stakes_keys (today : String) (db : DB) (sid : String)
    (snap : Stake) :
    (processStakeDaily today db sid snap).stakes.map Prod.fst =
      db.stakes.map Prod.fst := by
  unfold processStakeDaily
  repeat' split
  all_goals first
    | rfl
    | exact keys_setd_of_getd _ _ _ _ (by assumption)

theorem processStakeDaily_noop (today : String) (db : DB) (sid : String) (s1 : Stake)
    (h : s1.userId = "" ∨ s1.remainingDays ≤ 0 ∨ s1.lastProcessedDate = some today ∨
      getd db.users s1.userId = none) :
    processStakeDaily today db sid s1 = db := by
  unfold processStakeDaily
  rcases h with h | h | h | h
  · rw [if_pos h]
  · by_cases h1 : s1.userId = ""
    · rw [if_pos h1]
    · rw [if_neg h1, if_pos h]
  · by_cases h1 : s1.userId = ""
    · rw [if_pos h1]
    · rw [if_neg h1]
      by_cases h2 : s1.remainingDays ≤ 0
      · rw [if_pos h2]
      · rw [if_neg h2, if_pos h]
  · repeat' split
    all_goals try rfl
    all_goals simp_all

end Oblinks

namespace Oblinks

/-- A stake left with `lastProcessedDate ≠ today` by its own processing step
was skipped for a persistent reason: empty owner id, no days left, or a
missing owner document. -/
theorem processStakeDaily_unprocessed (today : String) (db : DB) (sid : String)
    (snap s1 : Stake)
    (hsnap : getd db.stakes sid = some snap)
    (h1 : getd (processStakeDaily today db sid snap).stakes sid = some s1)
    (hne : s1.lastProcessedDate ≠ some today) :
    processStakeDaily today db sid snap = db ∧ s1 = snap ∧
      (snap.userId = "" ∨ snap.remainingDays ≤ 0 ∨
        getd db.users snap.userId = none) := by
  by_cases hu0 : snap.userId = ""
  · have hid := processStakeDaily_noop today db sid snap (Or.inl hu0)
    rw [hid, hsnap] at h1
    exact ⟨hid, (Option.some_inj.mp h1).symm, Or.inl hu0⟩
  by_cases hr0 : snap.remainingDays ≤ 0
  · have hid := processStakeDaily_noop today db sid snap (Or.inr (Or.inl hr0))
    rw [hid, hsnap] at h1
    exact ⟨hid, (Option.some_inj.mp h1).symm, Or.inr (Or.inl hr0)⟩
  by_cases hl0 : snap.lastProcessedDate = some today
  · have hid := processStakeDaily_noop today db sid snap (Or.inr (Or.inr (Or.inl hl0)))
    rw [hid, hsnap] at h1
    exact absurd ((Option.some_inj.mp h1).symm ▸ hl0) hne
  rcases hus : getd db.users snap.userId with _ | u
  · have hid := processStakeDaily_noop today db sid snap (Or.inr (Or.inr (Or.inr hus)))
    rw [hid, hsnap] at h1
    exact ⟨hid, (Option.some_inj.mp h1).symm, Or.inr (Or.inr rfl)⟩
  · exfalso
    unfold processStakeDaily at h1
    rw [if_neg hu0, if_neg hr0, if_neg hl0] at h1
    dsimp only at h1
    rw [hsnap] at h1
    dsimp only at h1
    rw [if_neg hl0, if_neg hr0, hus] at h1
    dsimp only at h1
    rw [getd_setd_self] at h1
    exact hne (by rw [← Option.some_inj.mp h1])

theorem foldl_step_id (today : String) (l : List (String × Stake)) (db : DB)
    (h : ∀ p ∈ l, processStakeDaily today db p.1 p.2 = db) :
    l.foldl (fun acc p => processStakeDaily today acc p.1 p.2) db = db := by
  induction l with
  | nil => rfl
  | cons p rest ih =>
    simp only [List.foldl_cons]
    rw [h p (List.mem_cons_self _ _)]
    exact ih fun q hq => h q (List.mem_cons_of_mem _ hq)

theorem dailyGo_stakes_keys (today : String) (l : List (String × Stake)) :
    ∀ db : DB,
      (l.foldl (fun acc p => processStakeDaily today acc p.1 p.2) db).stakes.map
        Prod.fst = db.stakes.map Prod.fst := by
  induction l with
  | nil => intro db; rfl
  | cons p rest ih =>
    intro db
    simp only [List.foldl_cons]
    rw [ih (processStakeDaily today db p.1 p.2),
      processStakeDaily_stakes_keys today db p.1 p.2]

theorem dailyGo_users_none (today : String) (l : List (String × Stake)) :
    ∀ (db : DB) (x : String), getd db.users x = none →
      getd ((l.foldl (fun acc p => processStakeDaily today acc p.1 p.2) db)).users
        x = none := by
  induction l with
  | nil => intro db x h; exact h
  | cons p rest ih =>
    intro db x h
    simp only [List.foldl_cons]
    exact ih _ x (processStakeDaily_users_none today db p.1 p.2 x h)

end Oblinks

namespace Oblinks

/-- After folding the daily step over a page of distinct stake snapshots, any
stake still lacking today's stamp either was outside the page (and is
unchanged), or was skipped for a persistent reason. -/
theorem dailyGo_unprocessed (today : String) :
    ∀ (l : List (String × Stake)) (db : DB),
      (l.map Prod.fst).Nodup →
      (∀ p ∈ l, getd db.stakes p.1 = some p.2) →
      ∀ sid s1,
        getd (l.foldl (fun acc p => processStakeDaily today acc p.1 p.2) db).stakes
          sid = some s1 →
        s1.lastProcessedDate ≠ some today →
        (getd db.stakes sid = some s1 ∧ sid ∉ l.map Prod.fst) ∨
        s1.userId = "" ∨ s1.remainingDays ≤ 0 ∨
        getd (l.foldl (fun acc p => processStakeDaily today acc p.1 p.2) db).users
          s1.userId = none := by
  intro l
  induction l with
  | nil =>
    intro db hnd hmem sid s1 h1 hne
    exact Or.inl ⟨h1, by simp⟩
  | cons p rest ih =>
    intro db hnd hmem sid s1 h1 hne
    simp only [List.foldl_cons] at h1 ⊢
    have hndc := List.nodup_cons.mp (hnd : (p.1 :: rest.map Prod.fst).Nodup)
    have hmem2 : ∀ q ∈ rest,
        getd (processStakeDaily today db p.1 p.2).stakes q.1 = some q.2 := by
      intro q hq
      have hqne : q.1 ≠ p.1 := by
        intro he
        exact hndc.1 (he ▸ List.mem_map_of_mem Prod.fst hq)
      rw [processStakeDaily_stakes_ne today db p.1 p.2 q.1 hqne]
      exact hmem q (List.mem_cons_of_mem _ hq)
    rcases ih (processStakeDaily today db p.1 p.2) hndc.2 hmem2 sid s1 h1 hne with
      ⟨hget, hnin⟩ | h | h | h
    · by_cases hsp : sid = p.1
      · subst hsp
        obtain ⟨hid, hs1, hreason⟩ := processStakeDaily_unprocessed today db p.1 p.2 s1
          (hmem p (List.mem_cons_self _ _)) hget hne
        subst hs1
        rcases hreason with hr | hr | hr
        · exact Or.inr (Or.inl hr)
        · exact Or.inr (Or.inr (Or.inl hr))
        · refine Or.inr (Or.inr (Or.inr ?_))
          exact dailyGo_users_none today rest _ _ (by rw [hid]; exact hr)
      · rw [processStakeDaily_stakes_ne today db p.1 p.2 sid (by exact hsp)] at hget
        refine Or.inl ⟨hget, ?_⟩
        simp only [List.map_cons, List.mem_cons]
        rintro (h | h)
        · exact hsp h
        · exact hnin h
    · exact Or.inr (Or.inl h)
    · exact Or.inr (Or.inr (Or.inl h))
    · exact Or.inr (Or.inr (Or.inr h))

end Oblinks

namespace Oblinks

theorem mem_dailyPage (db : DB) (p : String × Stake) (hp : p ∈ dailyPage db) :
    p ∈ db.stakes ∧ p.2.status = StakeStatus.active ∧ 0 < p.2.remainingDays := by
  have hp2 : p ∈ db.stakes.filter
      (fun q => q.2.status = StakeStatus.active ∧ q.2.remainingDays > 0) :=
    (sortBy_perm _ _).mem_iff.mp hp
  refine ⟨List.mem_of_mem_filter hp2, ?_⟩
  have := List.of_mem_filter hp2
  simpa using this

theorem dailyPage_mem_of (db : DB) (p : String × Stake) (hmem : p ∈ db.stakes)
    (hact : p.2.status = StakeStatus.active) (hrem : 0 < p.2.remainingDays) :
    p.1 ∈ (dailyPage db).map Prod.fst := by
  have hf : p ∈ db.stakes.filter
      (fun q => q.2.status = StakeStatus.active ∧ q.2.remainingDays > 0) :=
    List.mem_filter.mpr ⟨hmem, by simpa using ⟨hact, hrem⟩⟩
  exact List.mem_map_of_mem Prod.fst ((sortBy_perm _ _).mem_iff.mpr hf)

theorem dailyPage_keys_nodup (db : DB) (hnd : (db.stakes.map Prod.fst).Nodup) :
    ((dailyPage db).map Prod.fst).Nodup := by
  have hperm := ((sortBy_perm stakeScanLE
    (db.stakes.filter (fun q => q.2.status = StakeStatus.active ∧
      q.2.remainingDays > 0)))).map Prod.fst
  have hsub := (List.filter_sublist (l := db.stakes)
    (p := fun q => decide (q.2.status = StakeStatus.active ∧ q.2.remainingDays > 0))).map
    Prod.fst
  exact hperm.nodup_iff.mpr (List.Nodup.sublist hsub hnd)

/-- C3: running the daily accrual job twice on the same date is a no-op the
second time — each stake's wallet/earnings increment happens exactly once —
enforced by the `lastProcessedDate` pre-scan skip (second conjunct) and the
transactional re-check. -/
theorem c3_daily_accrual_idempotent (today : String) (db : DB)
    (hnd : (db.stakes.map Prod.fst).Nodup) :
    runDailyReturns today (runDailyReturns today db) = runDailyReturns today db ∧
    (∀ sid s, getd db.stakes sid = some s → s.lastProcessedDate = some today →
      processStakeDaily today db sid s = db) := by
  constructor
  · have hkeys1 : (runDailyReturns today db).stakes.map Prod.fst =
        db.stakes.map Prod.fst := dailyGo_stakes_keys today (dailyPage db) db
    have hnd1 : ((runDailyReturns today db).stakes.map Prod.fst).Nodup :=
      hkeys1 ▸ hnd
    show (dailyPage (runDailyReturns today db)).foldl
        (fun acc p => processStakeDaily today acc p.1 p.2) (runDailyReturns today db)
      = runDailyReturns today db
    apply foldl_step_id
    intro p hp
    obtain ⟨hmem1, hact, hrem⟩ := mem_dailyPage _ p hp
    have hget1 : getd (runDailyReturns today db).stakes p.1 = some p.2 :=
      getd_of_mem_nodup _ hnd1 p hmem1
    by_cases hl : p.2.lastProcessedDate = some today
    · exact processStakeDaily_noop today _ p.1 p.2 (Or.inr (Or.inr (Or.inl hl)))
    · have hpage_nd : ((dailyPage db).map Prod.fst).Nodup := dailyPage_keys_nodup db hnd
      have hpage_mem : ∀ q ∈ dailyPage db, getd db.stakes q.1 = some q.2 :=
        fun q hq => getd_of_mem_nodup _ hnd q (mem_dailyPage db q hq).1
      rcases dailyGo_unprocessed today (dailyPage db) db hpage_nd hpage_mem p.1 p.2
          hget1 hl with ⟨hget0, hnin⟩ | h | h | h
      · exact absurd (dailyPage_mem_of db p (mem_of_getd_eq_some _ _ _ hget0) hact hrem)
          hnin
      · exact processStakeDaily_noop today _ p.1 p.2 (Or.inl h)
      · exact processStakeDaily_noop today _ p.1 p.2 (Or.inr (Or.inl h))
      · exact processStakeDaily_noop today _ p.1 p.2 (Or.inr (Or.inr (Or.inr h)))
  · intro sid s hs hl
    exact processStakeDaily_noop today db sid s (Or.inr (Or.inr (Or.inl hl)))

theorem c3_daily_accrual_idempotent_witness :
    runDailyReturns "d01" (runDailyReturns "d01" accrualDB) =
      runDailyReturns "d01" accrualDB ∧
    (∀ sid s, getd accrualDB.stakes sid = some s → s.lastProcessedDate = some "d01" →
      processStakeDaily "d01" accrualDB sid s = accrualDB) :=
  c3_daily_accrual_idempotent "d01" accrualDB (by decide)

end Oblinks

namespace Oblinks

theorem distributeOne_users_nonneg (db0 : DB) (portion : ℚ) (sid uid : String)
    (acc : ℚ × DB)
    (h0 : ∀ q ∈ db0.users, 0 ≤ (Prod.snd q).accountBalance ∧ 0 ≤ (Prod.snd q).returnsWallet)
    (hacc : ∀ q ∈ acc.2.users, 0 ≤ (Prod.snd q).accountBalance ∧ 0 ≤ (Prod.snd q).returnsWallet) :
    ∀ q ∈ (distributeOne db0 portion sid acc uid).2.users,
      0 ≤ (Prod.snd q).accountBalance ∧ 0 ≤ (Prod.snd q).returnsWallet := by
  unfold distributeOne
  rcases hu : getd db0.users uid with _ | u
  · exact hacc
  · dsimp only
    by_cases ht : min u.returnsWallet portion ≤ 0
    · rw [if_pos ht]
      exact hacc
    · rw [if_neg ht]
      intro q hq
      dsimp only at hq
      rcases mem_setd _ _ _ _ hq with hq1 | hq2
      · obtain ⟨hua, huw⟩ := h0 (uid, u) (mem_of_getd_eq_some _ _ _ hu)
        subst hq1
        constructor
        · dsimp only
          have : (0 : ℚ) < min u.returnsWallet portion := lt_of_not_le ht
          linarith
        · dsimp only
          have : min u.returnsWallet portion ≤ u.returnsWallet := min_le_left _ _
          linarith
      · exact hacc q hq2

theorem distributeSlice_users_nonneg (db0 : DB) (uids : List String) (portion : ℚ)
    (sid : String)
    (h0 : ∀ q ∈ db0.users, 0 ≤ (Prod.snd q).accountBalance ∧ 0 ≤ (Prod.snd q).returnsWallet) :
    ∀ q ∈ (distributeSlice db0 uids portion sid).2.users,
      0 ≤ (Prod.snd q).accountBalance ∧ 0 ≤ (Prod.snd q).returnsWallet := by
  unfold distributeSlice
  suffices H : ∀ (l : List String) (acc : ℚ × DB),
      (∀ q ∈ acc.2.users, 0 ≤ (Prod.snd q).accountBalance ∧ 0 ≤ (Prod.snd q).returnsWallet) →
      ∀ q ∈ (l.foldl (distributeOne db0 portion sid) acc).2.users,
        0 ≤ (Prod.snd q).accountBalance ∧ 0 ≤ (Prod.snd q).returnsWallet by
    exact H uids (0, db0) h0
  intro l
  induction l with
  | nil => intro acc hacc; exact hacc
  | cons x xs ih =>
    intro acc hacc
    simp only [List.foldl_cons]
    exact ih _ (distributeOne_users_nonneg db0 portion sid x acc h0 hacc)

theorem moveReferralBonus_users_nonneg (db : DB) (rid sid : String) (b : ℚ)
    (h0 : ∀ q ∈ db.users, 0 ≤ (Prod.snd q).accountBalance ∧ 0 ≤ (Prod.snd q).returnsWallet) :
    ∀ q ∈ (moveReferralBonus db rid sid b).2.users,
      0 ≤ (Prod.snd q).accountBalance ∧ 0 ≤ (Prod.snd q).returnsWallet := by
  unfold moveReferralBonus
  dsimp only
  rcases ht : getd db.transfers ("REF-" ++ sid ++ "-" ++ rid) with _ | t
  · dsimp only
    rcases hu : getd db.users rid with _ | u
    · exact h0
    · dsimp only
      by_cases hm : min u.returnsWallet b ≤ 0
      · rw [if_pos hm]
        exact h0
      · rw [if_neg hm]
        intro q hq
        dsimp only at hq
        rcases mem_setd _ _ _ _ hq with hq1 | hq2
        · obtain ⟨hua, huw⟩ := h0 (rid, u) (mem_of_getd_eq_some _ _ _ hu)
          subst hq1
          constructor
          · dsimp only
            have : (0 : ℚ) < min u.returnsWallet b := lt_of_not_le hm
            linarith
          · dsimp only
            have : min u.returnsWallet b ≤ u.returnsWallet := min_le_left _ _
            linarith
        · exact h0 q hq2
  · exact h0

theorem moveReferralBonus_le_wallet (db : DB) (rid sid : String) (b : ℚ) (u : User)
    (hT : getd db.transfers ("REF-" ++ sid ++ "-" ++ rid) = none)
    (hu : getd db.users rid = some u)
    (hw : 0 ≤ u.returnsWallet) :
    (moveReferralBonus db rid sid b).1 ≤ u.returnsWallet := by
  unfold moveReferralBonus
  dsimp only
  rw [hT, hu]
  dsimp only
  by_cases hm : min u.returnsWallet b ≤ 0
  · rw [if_pos hm]
    exact hw
  · rw [if_neg hm]
    exact min_le_left _ _

/-- C4: the wallet-decrementing operations read the wallet in the same
atomic write they decrement it, so (i) both `moveReferralBonus` and
`distributeSlice` preserve `accountBalance ≥ 0 ∧ returnsWallet ≥ 0` for
every user document, and (ii) a fresh referral move never exceeds the
`returnsWallet` balance read inside its transaction. -/
theorem c4_wallets_nonneg_preserved :
    (∀ (db : DB) (rid sid : String) (b : ℚ),
      (∀ q ∈ db.users, 0 ≤ (Prod.snd q).accountBalance ∧ 0 ≤ (Prod.snd q).returnsWallet) →
      ∀ q ∈ (moveReferralBonus db rid sid b).2.users,
        0 ≤ (Prod.snd q).accountBalance ∧ 0 ≤ (Prod.snd q).returnsWallet) ∧
    (∀ (db : DB) (rid sid : String) (b : ℚ) (u : User),
      getd db.transfers ("REF-" ++ sid ++ "-" ++ rid) = none →
      getd db.users rid = some u →
      0 ≤ u.returnsWallet →
      (moveReferralBonus db rid sid b).1 ≤ u.returnsWallet) ∧
    (∀ (db : DB) (uids : List String) (portion : ℚ) (sid : String),
      (∀ q ∈ db.users, 0 ≤ (Prod.snd q).accountBalance ∧ 0 ≤ (Prod.snd q).returnsWallet) →
      ∀ q ∈ (distributeSlice db uids portion sid).2.users,
        0 ≤ (Prod.snd q).accountBalance ∧ 0 ≤ (Prod.snd q).returnsWallet) :=
  ⟨fun db rid sid b h0 => moveReferralBonus_users_nonneg db rid sid b h0,
   fun db rid sid b u hT hu hw => moveReferralBonus_le_wallet db rid sid b u hT hu hw,
   fun db uids portion sid h0 => distributeSlice_users_nonneg db uids portion sid h0⟩

theorem c4_wallets_nonneg_preserved_witness :
    (∀ q ∈ (moveReferralBonus richDB "r" "S1" 440).2.users,
      0 ≤ (Prod.snd q).accountBalance ∧ 0 ≤ (Prod.snd q).returnsWallet) ∧
    ((moveReferralBonus richDB "r" "S1" 440).1 ≤ (walletUser 100).returnsWallet) ∧
    (∀ q ∈ (distributeSlice richDB ["r"] 50 "S1").2.users,
      0 ≤ (Prod.snd q).accountBalance ∧ 0 ≤ (Prod.snd q).returnsWallet) := by
  have hinv : ∀ q ∈ richDB.users,
      0 ≤ (Prod.snd q).accountBalance ∧ 0 ≤ (Prod.snd q).returnsWallet := by
    intro q hq
    simp only [richDB, List.mem_singleton] at hq
    subst hq
    norm_num [walletUser]
  refine ⟨?_, ?_, ?_⟩
  · exact c4_wallets_nonneg_preserved.1 richDB "r" "S1" 440 hinv
  · exact c4_wallets_nonneg_preserved.2.1 richDB "r" "S1" 440 (walletUser 100) rfl rfl
      (by norm_num [walletUser])
  · exact c4_wallets_nonneg_preserved.2.2 richDB ["r"] 50 "S1" hinv

end Oblinks

namespace Oblinks

theorem distributeOne_fst_le (db0 : DB) (portion : ℚ) (sid uid : String)
    (acc : ℚ × DB) (hp : 0 ≤ portion) :
    (distributeOne db0 portion sid acc uid).1 ≤ acc.1 + portion := by
  unfold distributeOne
  rcases hu : getd db0.users uid with _ | u
  · linarith
  · dsimp only
    by_cases ht : min u.returnsWallet portion ≤ 0
    · rw [if_pos ht]
      linarith
    · rw [if_neg ht]
      dsimp only
      have := min_le_right u.returnsWallet portion
      linarith

theorem distributeSlice_fst_le (db0 : DB) (uids : List String) (portion : ℚ)
    (sid : String) (hp : 0 ≤ portion) :
    (distributeSlice db0 uids portion sid).1 ≤ uids.length * portion := by
  unfold distributeSlice
  suffices H : ∀ (l : List String) (acc : ℚ × DB),
      (l.foldl (distributeOne db0 portion sid) acc).1 ≤ acc.1 + l.length * portion by
    simpa using H uids (0, db0)
  intro l
  induction l with
  | nil => intro acc; simp
  | cons x xs ih =>
    intro acc
    simp only [List.foldl_cons, List.length_cons]
    have h1 := ih (distributeOne db0 portion sid acc x)
    have h2 := distributeOne_fst_le db0 portion sid x acc hp
    have h3 : ((xs.length + 1 : ℕ) : ℚ) = (xs.length : ℚ) + 1 := by push_cast; ring
    rw [h3]
    nlinarith

theorem distLoop_fst_le (sid : String) (portion : ℚ) (totalUsers : Nat)
    (hp : 0 ≤ portion) (ids : List String) (idx : Nat) (dist : ℚ) (db : DB) :
    (distLoop sid portion totalUsers ids idx dist db).1 ≤
      dist + ids.length * portion := by
  induction ids, idx, dist, db using distLoop.induct sid portion totalUsers with
  | case1 idx dist db => simp [distLoop]
  | case2 idx dist db h t slice out dist2 db2 ih =>
    unfold distLoop
    dsimp only
    unfold_let slice out dist2 db2 at ih
    have hslice := distributeSlice_fst_le db (List.take PAGE_SIZE (h :: t)) portion sid hp
    have hlenN : (List.take PAGE_SIZE (h :: t)).length +
        (List.drop PAGE_SIZE (h :: t)).length = (h :: t).length := by
      rw [List.length_take, List.length_drop]
      omega
    have hcast : ((h :: t).length : ℚ) =
        ((List.take PAGE_SIZE (h :: t)).length : ℚ) +
        ((List.drop PAGE_SIZE (h :: t)).length : ℚ) := by
      exact_mod_cast hlenN.symm
    rw [hcast, add_mul]
    linarith

end Oblinks

namespace Oblinks

theorem moveReferralBonus_fst_le (db : DB) (rid sid : String) (b P : ℚ)
    (hb : b ≤ P) (h0 : 0 ≤ P)
    (hT : ∀ t, getd db.transfers ("REF-" ++ sid ++ "-" ++ rid) = some t →
      t.amount ≤ P) :
    (moveReferralBonus db rid sid b).1 ≤ P := by
  unfold moveReferralBonus
  dsimp only
  rcases ht : getd db.transfers ("REF-" ++ sid ++ "-" ++ rid) with _ | t
  · dsimp only
    rcases hu : getd db.users rid with _ | u
    · exact h0
    · dsimp only
      by_cases hm : min u.returnsWallet b ≤ 0
      · rw [if_pos hm]
        exact h0
      · rw [if_neg hm]
        exact le_trans (min_le_right _ _) hb
  · exact hT t ht

theorem jobEntry_frame (db : DB) (sid : String) (db1 : DB)
    (h : jobEntry db sid = Except.ok db1) :
    db1.users = db.users ∧ db1.transfers = db.transfers ∧
      db1.referrals = db.referrals ∧ db1.stakes = db.stakes := by
  unfold jobEntry at h
  rcases hj : getd db.jobs sid with _ | j
  · rw [hj] at h
    dsimp only at h
    obtain rfl : _ = db1 := Except.ok.inj h
    exact ⟨rfl, rfl, rfl, rfl⟩
  · rw [hj] at h
    dsimp only at h
    by_cases hd : j.done
    · rw [hd] at h
      simp at h
    · rw [Bool.eq_false_iff.mpr hd] at h
      by_cases hl : j.locked
      · rw [hl] at h
        simp at h
      · rw [Bool.eq_false_iff.mpr hl] at h
        simp only [Bool.false_eq_true, if_false] at h
        obtain rfl : _ = db1 := Except.ok.inj h
        exact ⟨rfl, rfl, rfl, rfl⟩

theorem getReferralForStake_spec (db : DB) (sid rid : String) (b : ℚ)
    (h : getReferralForStake db sid = (some rid, b)) :
    ∃ r, r ∈ db.referrals ∧ r.depositRef = sid ∧ b = max 0 r.bonus ∧
      r.referrerId = rid := by
  unfold getReferralForStake at h
  rcases hf : db.referrals.find? (fun r => r.depositRef == sid) with _ | r
  · rw [hf] at h
    simp at h
  · rw [hf] at h
    dsimp only at h
    have hmem := List.mem_of_find?_eq_some hf
    have hdep : r.depositRef = sid := by
      have := List.find?_some hf
      simpa using this
    have h1 := congrArg Prod.fst h
    have h2 := congrArg Prod.snd h
    dsimp only at h1 h2
    by_cases hz : r.referrerId = ""
    · rw [if_pos hz] at h1
      cases h1
    · rw [if_neg hz] at h1
      exact ⟨r, hmem, hdep, h2.symm, Option.some_inj.mp h1⟩

/-- The pool-splitting tail of `handleStake` never pays out more than
`P - rmv` on top of the referral amount `rmv`. -/
theorem c1_rest (stakeId : String) (P rmv : ℚ) (db2 : DB) (hrmP : rmv ≤ P) :
    rmv + (if max 0 (P - rmv) > 0 then
        (if (listAllUsersWithActiveStake db2).length > 0 then
          distLoop stakeId
            (max 0 (P - rmv) / ((listAllUsersWithActiveStake db2).length : ℚ))
            (listAllUsersWithActiveStake db2).length
            (listAllUsersWithActiveStake db2) 0 0 db2
        else ((0 : ℚ), db2))
      else ((0 : ℚ), db2)).1 ≤ P := by
  by_cases hpool : max 0 (P - rmv) > 0
  · rw [if_pos hpool]
    have hx : 0 < P - rmv := by
      by_contra hc
      push_neg at hc
      rw [max_eq_left hc] at hpool
      exact absurd hpool (lt_irrefl 0)
    have hmax : max 0 (P - rmv) = P - rmv := max_eq_right (le_of_lt hx)
    by_cases hlen : (listAllUsersWithActiveStake db2).length > 0
    · rw [if_pos hlen]
      have hn0 : ((listAllUsersWithActiveStake db2).length : ℚ) ≠ 0 := by
        exact_mod_cast Nat.pos_iff_ne_zero.mp hlen
      have hp0 : 0 ≤ max 0 (P - rmv) / ((listAllUsersWithActiveStake db2).length : ℚ) :=
        div_nonneg (le_max_left _ _) (by positivity)
      have hb := distLoop_fst_le stakeId
        (max 0 (P - rmv) / ((listAllUsersWithActiveStake db2).length : ℚ))
        (listAllUsersWithActiveStake db2).length hp0
        (listAllUsersWithActiveStake db2) 0 0 db2
      have hcancel : ((listAllUsersWithActiveStake db2).length : ℚ) *
          (max 0 (P - rmv) / ((listAllUsersWithActiveStake db2).length : ℚ)) =
          max 0 (P - rmv) := by
        rw [mul_comm, div_mul_cancel₀ _ hn0]
      linarith
    · rw [if_neg hlen]
      dsimp only
      linarith
  · rw [if_neg hpool]
    dsimp only
    linarith

end Oblinks

namespace Oblinks

/-- C1: one distribution run moves at most the triggering stake's principal:
`referralMoved + distributed ≤ principal`.  The two store-side conditions are
exactly what deposit crediting establishes for the records it writes: the
logged referral bonus for this stake is at most the stake principal, and any
previously recorded `REF-` transfer for this stake is at most the principal. -/
theorem c1_run_total_bounded (stakeId : String) (db : DB) (sd : Stake)
    (hsd : getd db.stakes stakeId = some sd)
    (hP : 0 ≤ sd.principal)
    (hRef : ∀ r ∈ db.referrals, r.depositRef = stakeId → r.bonus ≤ sd.principal)
    (hTr : ∀ r ∈ db.referrals, r.depositRef = stakeId →
      ∀ t, getd db.transfers ("REF-" ++ stakeId ++ "-" ++ r.referrerId) = some t →
        t.amount ≤ sd.principal) :
    (runForStake stakeId db).referralMoved + (runForStake stakeId db).distributed ≤
      sd.principal := by
  unfold runForStake
  rw [hsd]
  dsimp only
  unfold handleStake
  cases hJE : jobEntry db stakeId with
  | error e =>
    dsimp only
    linarith
  | ok db1 =>
    dsimp only
    obtain ⟨hU, hT, hR, hS⟩ := jobEntry_frame db stakeId db1 hJE
    by_cases hPP : ¬ sd.principal > 0
    · rw [if_pos hPP]
      dsimp only
      linarith
    · rw [if_neg hPP]
      dsimp only
      rcases hr : getReferralForStake db1 stakeId with ⟨ro, b⟩
      dsimp only
      rcases ro with _ | rid
      · dsimp only
        exact c1_rest stakeId sd.principal 0 db1 hP
      · dsimp only
        by_cases hb : b > 0
        · rw [if_pos hb]
          obtain ⟨rec, hmem, hdep, hbval, hrid⟩ :=
            getReferralForStake_spec db1 stakeId rid b hr
          rw [hR] at hmem
          have hbP : b ≤ sd.principal := by
            rw [hbval]
            exact max_le hP (hRef rec hmem hdep)
          have hTrP : ∀ t, getd db1.transfers ("REF-" ++ stakeId ++ "-" ++ rid) =
              some t → t.amount ≤ sd.principal := by
            intro t ht
            rw [hT] at ht
            rw [← hrid] at ht
            exact hTr rec hmem hdep t ht
          have hM := moveReferralBonus_fst_le db1 rid stakeId b sd.principal hbP hP hTrP
          exact c1_rest stakeId sd.principal
            (moveReferralBonus db1 rid stakeId b).1
            (moveReferralBonus db1 rid stakeId b).2 hM
        · rw [if_neg hb]
          dsimp only
          exact c1_rest stakeId sd.principal 0 db1 hP

theorem c1_run_total_bounded_witness :
    (runForStake "S1" c1DB).referralMoved + (runForStake "S1" c1DB).distributed ≤
      c1Stake.principal := by
  refine c1_run_total_bounded "S1" c1DB c1Stake rfl (by norm_num [c1Stake]) ?_ ?_
  · intro r hr hdep
    simp only [c1DB, List.mem_singleton] at hr
    subst hr
    norm_num [c1Referral, refRecC, c1Stake]
  · intro r hr hdep t ht
    simp only [c1DB, getd_nil] at ht
    cases ht

end Oblinks

namespace Oblinks

theorem findReferrer_mem (db : DB) (u : User) (rid : String) (rd : User)
    (h : findReferrer db u = some (rid, rd)) : (rid, rd) ∈ db.users := by
  unfold findReferrer at h
  cases hc : u.referrerCode with
  | none =>
    rw [hc] at h
    cases h
  | some code =>
    rw [hc] at h
    dsimp only at h
    by_cases hz : code = ""
    · rw [if_pos hz] at h
      cases h
    · rw [if_neg hz] at h
      exact List.mem_of_find?_eq_some h

/-- The `totalDeposited` update leaves every user's `paidRefereesIds` intact,
so the coverage half of the referral invariant survives it. -/
theorem paid_inv_after_totalDep (db : DB) (userId : String) (u uDep : User)
    (hu : getd db.users userId = some u)
    (hp : uDep.paidRefereesIds = u.paidRefereesIds)
    (hinv1 : ∀ r ∈ db.referrals, ∀ w, getd db.users r.referrerId = some w →
      r.refereeId ∈ w.paidRefereesIds) :
    ∀ r ∈ db.referrals, ∀ w, getd (setd db.users userId uDep) r.referrerId = some w →
      r.refereeId ∈ w.paidRefereesIds := by
  intro r hr w hw
  by_cases hk : r.referrerId = userId
  · rw [hk, getd_setd_self] at hw
    obtain rfl : uDep = w := Option.some_inj.mp hw
    rw [hp]
    exact hinv1 r hr u (hk ▸ hu)
  · rw [getd_setd_ne _ _ _ _ hk] at hw
    exact hinv1 r hr w hw

/-- The referral-bonus write preserves both halves of the pair invariant:
the appended record's referee is added to the referrer's `paidRefereesIds`,
and the snapshot guard rules out a second record for the same pair. -/
theorem referralWrite_pair_inv (tx : String) (amount : ℚ) (uid : String)
    (re : Option (String × User)) (d : DB)
    (hinv1 : ∀ r ∈ d.referrals, ∀ w, getd d.users r.referrerId = some w →
      r.refereeId ∈ w.paidRefereesIds)
    (hinv2 : d.referrals.Pairwise
      (fun a b => ¬(a.referrerId = b.referrerId ∧ a.refereeId = b.refereeId)))
    (hre : ∀ rid rd, re = some (rid, rd) →
      ∃ c, getd d.users rid = some c ∧ c.paidRefereesIds = rd.paidRefereesIds) :
    (∀ r ∈ (referralWrite tx amount uid re d).referrals, ∀ w,
      getd (referralWrite tx amount uid re d).users r.referrerId = some w →
      r.refereeId ∈ w.paidRefereesIds) ∧
    (referralWrite tx amount uid re d).referrals.Pairwise
      (fun a b => ¬(a.referrerId = b.referrerId ∧ a.refereeId = b.refereeId)) := by
  unfold referralWrite
  rcases re with _ | ⟨rid, rd⟩
  · exact ⟨hinv1, hinv2⟩
  · dsimp only
    by_cases hin : uid ∈ rd.paidRefereesIds
    · rw [if_pos hin]
      exact ⟨hinv1, hinv2⟩
    · rw [if_neg hin]
      obtain ⟨c, hc, hcp⟩ := hre rid rd rfl
      rw [hc]
      dsimp only
      constructor
      · intro r hr w hw
        rcases List.mem_append.mp hr with hrold | hrnew
        · by_cases hk : r.referrerId = rid
          · rw [hk, getd_setd_self] at hw
            obtain rfl := Option.some_inj.mp hw
            have hmem : r.refereeId ∈ c.paidRefereesIds :=
              hinv1 r hrold c (hk ▸ hc)
            dsimp only
            split
            · exact hmem
            · exact List.mem_append_left _ hmem
          · rw [getd_setd_ne _ _ _ _ hk] at hw
            exact hinv1 r hrold w hw
        · rw [List.mem_singleton] at hrnew
          subst hrnew
          dsimp only at hw ⊢
          rw [getd_setd_self] at hw
          obtain rfl := Option.some_inj.mp hw
          dsimp only
          split
          · next hmem => exact absurd (hcp ▸ hmem) hin
          · exact List.mem_append_right _ (List.mem_singleton_self uid)
      · refine List.pairwise_append.mpr ⟨hinv2, List.pairwise_singleton _ _, ?_⟩
        intro a ha b hb
        rw [List.mem_singleton] at hb
        subst hb
        dsimp only
        rintro ⟨h1, h2⟩
        have hmem : a.refereeId ∈ c.paidRefereesIds := hinv1 a ha c (h1 ▸ hc)
        exact hin (hcp ▸ (h2 ▸ hmem))

/-- C8: at most one `Referral` record per (referrer, referee) pair.  The
`paidRefereesIds` membership check, the bonus credit, the `arrayUnion`
append and the `Referral` write share one transaction, so
`createStakeAndCredit` preserves the invariant that (i) every logged pair's
referee appears in the referrer's `paidRefereesIds` and (ii) no two
`Referral` records carry the same (referrer, referee) pair. -/
theorem c8_referral_pair_unique (txRef : String) (amount : ℚ) (userId : String)
    (db : DB)
    (hnd : (db.users.map Prod.fst).Nodup)
    (hinv1 : ∀ r ∈ db.referrals, ∀ w, getd db.users r.referrerId = some w →
      r.refereeId ∈ w.paidRefereesIds)
    (hinv2 : db.referrals.Pairwise
      (fun a b => ¬(a.referrerId = b.referrerId ∧ a.refereeId = b.refereeId))) :
    (∀ r ∈ (createStakeAndCredit txRef amount userId db).2.referrals, ∀ w,
      getd (createStakeAndCredit txRef amount userId db).2.users r.referrerId =
        some w → r.refereeId ∈ w.paidRefereesIds) ∧
    (createStakeAndCredit txRef amount userId db).2.referrals.Pairwise
      (fun a b => ¬(a.referrerId = b.referrerId ∧ a.refereeId = b.refereeId)) := by
  unfold createStakeAndCredit
  by_cases hcred : ((getd db.deposits txRef).elim false Deposit.credited) = true
  · rw [hcred]
    simp only [if_true]
    exact ⟨hinv1, hinv2⟩
  · rw [Bool.eq_false_iff.mpr hcred]
    simp only [Bool.false_eq_true, if_false]
    unfold creditTx
    rcases hu : getd (depositWrite txRef amount userId db).users userId with _ | u
    · dsimp only
      exact ⟨hinv1, hinv2⟩
    · dsimp only
      rw [incrementCompanyStakes_referrals, markCredited_referrals,
        incrementCompanyStakes_users, markCredited_users]
      have hu0 : getd db.users userId = some u := hu
      have key : ∀ dbx : DB, dbx.referrals = db.referrals →
          dbx.users = setd db.users userId
            { u with totalDeposited := round2 (u.totalDeposited + amount) } →
          (∀ r ∈ (referralWrite txRef amount userId
              (findReferrer (depositWrite txRef amount userId db) u) dbx).referrals,
            ∀ w, getd (referralWrite txRef amount userId
              (findReferrer (depositWrite txRef amount userId db) u) dbx).users
              r.referrerId = some w → r.refereeId ∈ w.paidRefereesIds) ∧
          (referralWrite txRef amount userId
              (findReferrer (depositWrite txRef amount userId db) u) dbx).referrals.Pairwise
            (fun a b => ¬(a.referrerId = b.referrerId ∧ a.refereeId = b.refereeId)) := by
        intro dbx hxr hxu
        apply referralWrite_pair_inv
        · rw [hxr, hxu]
          exact paid_inv_after_totalDep db userId u _ hu0 rfl hinv1
        · rw [hxr]
          exact hinv2
        · intro rid rd hre
          have hmem : (rid, rd) ∈ db.users :=
            findReferrer_mem (depositWrite txRef amount userId db) u rid rd hre
          have hg : getd db.users rid = some rd := getd_of_mem_nodup _ hnd _ hmem
          rw [hxu]
          by_cases hk : rid = userId
          · subst hk
            refine ⟨{ u with totalDeposited := round2 (u.totalDeposited + amount) },
              getd_setd_self _ _ _, ?_⟩
            have hru : rd = u := Option.some_inj.mp (hg ▸ hu0)
            rw [hru]
          · exact ⟨rd, by rw [getd_setd_ne _ _ _ _ hk]; exact hg, rfl⟩
      exact key _ (by split <;> rfl) (by split <;> rfl)

theorem c8_referral_pair_unique_witness :
    (depositDB.users.map Prod.fst).Nodup ∧
    ((∀ r ∈ (createStakeAndCredit "T1" 1100 "a" depositDB).2.referrals, ∀ w,
      getd (createStakeAndCredit "T1" 1100 "a" depositDB).2.users r.referrerId =
        some w → r.refereeId ∈ w.paidRefereesIds) ∧
     (createStakeAndCredit "T1" 1100 "a" depositDB).2.referrals.Pairwise
      (fun a b => ¬(a.referrerId = b.referrerId ∧ a.refereeId = b.refereeId))) :=
  ⟨by decide, c8_referral_pair_unique "T1" 1100 "a" depositDB (by decide)
    (fun r hr => nomatch hr) List.Pairwise.nil⟩

end Oblinks
